import Mathlib

/-
Verification of goware/tracer (src/tracer.go): a bounded, hierarchical
log/trace buffer with group/span eviction, duplicate-message coalescing,
ordered read views and a hand-rolled ordered-key JSON snapshot.

The Go code is shallowly embedded:
  * Go maps (`map[string]V`) become association lists `List (String × V)`.
    Go map iteration order is unspecified; the model iterates in
    association-list order (insertion order), which realizes the
    "ties broken arbitrarily — first encountered" behaviour deterministically.
  * `time.Time` values become `Nat` timestamps (`Before` is `<`,
    `After` is `>`, the zero value is `0`); `time.Now().UTC()` becomes an
    explicit `now : Nat` parameter of each write.
  * the `count uint32` field wraps modulo 2^32, written explicitly.
  * `fmt.Sprintf(message, v...)` happens before `log`'s empty-message check;
    the model takes the already-formatted message as the `msg` argument.
  * the `sync.RWMutex` is dropped: every operation is a pure function of the
    whole store state, which is exactly what the lock guarantees.
-/

/-- Embeds Go struct `logEntry` (tracer.go).  `count` is a `uint32` in Go and
is modelled as a `Nat` that is reduced mod 2^32 whenever it is incremented. -/
structure LogEntry where
  group : String
  span : String
  message : String
  level : String
  time : Nat
  count : Nat
deriving Repr, DecidableEq

/-- Go map read `m[k]` (no default): association-list lookup. -/
def mapGet {α : Type} : List (String × α) → String → Option α
  | [], _ => none
  | (k', v) :: rest, k => if k' = k then some v else mapGet rest k

/-- Go map write `m[k] = v`: replace in place if the key is present, else
append the new key (model-internal order: insertion order). -/
def mapSet {α : Type} : List (String × α) → String → α → List (String × α)
  | [], k, v => [(k, v)]
  | (k', v') :: rest, k, v =>
    if k' = k then (k, v) :: rest else (k', v') :: mapSet rest k v

/-- Go `delete(m, k)`. -/
def mapDel {α : Type} (l : List (String × α)) (k : String) : List (String × α) :=
  l.filter (fun p => p.1 ≠ k)

/-- Inner loop of the oldest-key scans in `log` (tracer.go): carries the
current best key/timestamp and replaces it exactly when `ts.Before(oldestTime)`
holds (strict `<`), so among equal-timestamp keys the first encountered wins. -/
def findOldestGo : List (String × Nat) → String → Nat → String
  | [], bk, _ => bk
  | (k, v) :: rest, bk, bv =>
    if v < bv then findOldestGo rest k v else findOldestGo rest bk bv

/-- The `for grp, ts := range …` oldest-key scan of `log` (tracer.go): returns
the first key holding the minimal timestamp, and the Go zero value `""` when
the map is empty (the loop body never runs and `oldestGroup` keeps its zero
value). -/
def findOldest (l : List (String × Nat)) : String :=
  match l with
  | [] => ""
  | (k, v) :: rest => findOldestGo rest k v

/-- Embeds Go struct `tracer` (tracer.go): the three-level store
`logs : group → span → []logEntry`, the capacity parameters (Go `int`,
modelled as `Int`), the enabled gate, and the two parallel timestamp maps. -/
structure Tracer where
  logs : List (String × List (String × List LogEntry))
  numGroups : Int
  numSpans : Int
  numMessages : Int
  enabled : Bool
  groupTS : List (String × Nat)
  spanTS : List (String × List (String × Nat))
deriving Repr, DecidableEq

/-- Go constant `DefaultGroupCount`. -/
def DefaultGroupCount : Int := 40

/-- Go constant `DefaultSpanCount`. -/
def DefaultSpanCount : Int := 60

/-- Go constant `DefaultMessageCount`. -/
def DefaultMessageCount : Int := 60

/-- Embeds `NewTracerWithSizes` (tracer.go): each size that is `< 1` falls
back to its default; the maps start empty and the tracer starts enabled. -/
def NewTracerWithSizes (numGroups numSpans numMessages : Int) : Tracer :=
  { logs := []
    numGroups := if numGroups < 1 then DefaultGroupCount else numGroups
    numSpans := if numSpans < 1 then DefaultSpanCount else numSpans
    numMessages := if numMessages < 1 then DefaultMessageCount else numMessages
    enabled := true
    groupTS := []
    spanTS := [] }

/-- Embeds `NewTracer` (tracer.go). -/
def NewTracer : Tracer :=
  NewTracerWithSizes DefaultGroupCount DefaultSpanCount DefaultMessageCount

/-- Embeds `Enable` (tracer.go). -/
def Enable (t : Tracer) : Tracer := { t with enabled := true }

/-- Embeds `Disable` (tracer.go). -/
def Disable (t : Tracer) : Tracer := { t with enabled := false }

/-- Embeds `IsEnabled` (tracer.go). -/
def IsEnabled (t : Tracer) : Bool := t.enabled

/-- Embeds `Noop` (tracer.go): a 1/1/1-sized tracer, disabled. -/
def Noop : Tracer := Disable (NewTracerWithSizes 1 1 1)

/-- The entry list stored at `t.logs[group][span]`; `[]` when the group or the
span is absent (only used at points where the Go code has ensured presence). -/
def spanEntries (t : Tracer) (group span : String) : List LogEntry :=
  (mapGet ((mapGet t.logs group).getD []) span).getD []

/-- Go constant `maxMsgLen` in `log` (tracer.go). -/
def maxMsgLen : Nat := 1000

/-- Longest char prefix of the list whose total UTF-8 size fits the budget. -/
def takeUtf8 : Nat → List Char → List Char
  | _, [] => []
  | budget, c :: cs =>
    if c.utf8Size ≤ budget then c :: takeUtf8 (budget - c.utf8Size) cs else []

/-- Embeds `msg = msg[:maxMsgLen]` of `log` (tracer.go).  Go truncates the
string to its first 1000 bytes; the model keeps the longest char prefix that
fits in 1000 bytes, which coincides with Go whenever byte 1000 falls on a
character boundary (always for ASCII; otherwise Go produces an invalid-UTF-8
byte string that a Lean `String` cannot represent). -/
def goTruncate (msg : String) : String :=
  if msg.utf8ByteSize > maxMsgLen then String.mk (takeUtf8 maxMsgLen msg.data) else msg

/-- The duplicate test of the dedup scan in `log` (tracer.go):
`s[i].message == msg && s[i].level == level`. -/
def isDup (msg level : String) (e : LogEntry) : Bool :=
  e.message = msg && e.level = level

/-- The in-place update of the dedup scan in `log` (tracer.go): bump
`count` (uint32, hence mod 2^32) and refresh `time` on the first entry whose
(message, level) matches, leaving everything else unchanged (the Go loop
breaks at the first match). -/
def bumpDup (msg level : String) (now : Nat) : List LogEntry → List LogEntry
  | [] => []
  | e :: rest =>
    if isDup msg level e then
      { e with count := (e.count + 1) % 4294967296, time := now } :: rest
    else e :: bumpDup msg level now rest

/-- Steps of `log` (tracer.go) that ensure the group exists: when the group is
unseen and `len(groupTS) >= numGroups && numGroups > 0`, scan for the oldest
group and — only when its name is nonempty — delete its bucket, its group
timestamp and its span-timestamp submap; then create the empty group bucket
and span-timestamp submap. -/
def ensureGroup (t : Tracer) (group : String) : Tracer :=
  match mapGet t.logs group with
  | some _ => t
  | none =>
    let t1 :=
      if t.numGroups ≤ (t.groupTS.length : Int) ∧ 0 < t.numGroups then
        let oldestGroup := findOldest t.groupTS
        if oldestGroup ≠ "" then
          { t with
            logs := mapDel t.logs oldestGroup
            groupTS := mapDel t.groupTS oldestGroup
            spanTS := mapDel t.spanTS oldestGroup }
        else t
      else t
    { t1 with
      logs := mapSet t1.logs group []
      spanTS := mapSet t1.spanTS group [] }

/-- Steps of `log` (tracer.go) that ensure the span exists within the group:
when the span is unseen and `len(spanTS[group]) >= numSpans && numSpans > 0`,
scan for the oldest span of the group and — only when its name is nonempty —
delete its entry list and its timestamp; then create the empty entry list. -/
def ensureSpan (t : Tracer) (group span : String) : Tracer :=
  let gm := (mapGet t.logs group).getD []
  match mapGet gm span with
  | some _ => t
  | none =>
    let gts := (mapGet t.spanTS group).getD []
    let t1 :=
      if t.numSpans ≤ (gts.length : Int) ∧ 0 < t.numSpans then
        let oldestSpan := findOldest gts
        if oldestSpan ≠ "" then
          { t with
            logs := mapSet t.logs group (mapDel gm oldestSpan)
            spanTS := mapSet t.spanTS group (mapDel gts oldestSpan) }
        else t
      else t
    { t1 with
      logs := mapSet t1.logs group (mapSet ((mapGet t1.logs group).getD []) span []) }

/-- Store a new entry list at `t.logs[group][span]`. -/
def setEntries (t : Tracer) (group span : String) (l : List LogEntry) : Tracer :=
  { t with logs := mapSet t.logs group (mapSet ((mapGet t.logs group).getD []) span l) }

/-- The entry-handling tail of `log` (tracer.go), after the group and span
buckets exist and both timestamps are refreshed: empty-message abort,
truncation, dedup bump, and FIFO insertion under `numMessages`. -/
def logEntryStep (t : Tracer) (level group span msg : String) (now : Nat) : Tracer :=
  let s := spanEntries t group span
  if msg.utf8ByteSize = 0 then t
  else
    let msg := goTruncate msg
    if s.any (isDup msg level) then
      setEntries t group span (bumpDup msg level now s)
    else
      let newEntry : LogEntry :=
        { group := group, span := span, message := msg, level := level
          time := now, count := 1 }
      let s' :=
        if (s.length : Int) < t.numMessages then s ++ [newEntry]
        else if 0 < t.numMessages then s.tail ++ [newEntry]
        else []
      setEntries t group span s'

/-- The group/span bookkeeping of `log` (tracer.go) — its steps up to and
including the two timestamp refreshes, before the message is examined. -/
def logBookkeep (t : Tracer) (group span : String) (now : Nat) : Tracer :=
  let t1 := ensureGroup t group
  let t2 := { t1 with groupTS := mapSet t1.groupTS group now }
  let t3 := ensureSpan t2 group span
  { t3 with
    spanTS := mapSet t3.spanTS group
      (mapSet ((mapGet t3.spanTS group).getD []) span now) }

/-- Embeds `(*logger).log` (tracer.go).  `msg` is the already-formatted
message (`fmt.Sprintf(message, v...)`); `now` is `time.Now().UTC()`. -/
def log (t : Tracer) (level group span msg : String) (now : Nat) : Tracer :=
  if t.enabled then logEntryStep (logBookkeep t group span now) level group span msg now
  else t

/-- Embeds `Info` of `logger` (tracer.go). -/
def Info (t : Tracer) (group span msg : String) (now : Nat) : Tracer :=
  log t "INFO" group span msg now

/-- Embeds `Warn` of `logger` (tracer.go). -/
def Warn (t : Tracer) (group span msg : String) (now : Nat) : Tracer :=
  log t "WARN" group span msg now

/-- Embeds `Error` of `logger` (tracer.go). -/
def Error (t : Tracer) (group span msg : String) (now : Nat) : Tracer :=
  log t "ERROR" group span msg now

/-- One write request: severity, target group and span, formatted message and
its wall-clock time. -/
structure WriteOp where
  level : String
  group : String
  span : String
  message : String
  now : Nat
deriving Repr, DecidableEq

/-- A sequence of writes applied in order. -/
def applyWrites (t : Tracer) (ops : List WriteOp) : Tracer :=
  ops.foldl (fun t o => log t o.level o.group o.span o.message o.now) t

/-- Insert into a sorted list, keeping earlier elements first among ties. -/
def insLe {α : Type} (le : α → α → Bool) (x : α) : List α → List α
  | [] => [x]
  | y :: ys => if le x y then x :: y :: ys else y :: insLe le x ys

/-- Deterministic comparison sort.  Go's `sort.Slice` with a strict
`After`-comparator sorts most-recent-first with an unspecified order among
ties; the model sorts with the complementary total `le` and realizes a fixed
tie order. -/
def sortLe {α : Type} (le : α → α → Bool) : List α → List α
  | [] => []
  | x :: xs => insLe le x (sortLe le xs)

/-- Go map read `t.groupTS[g]` inside the sort comparators: zero value `0`
for an absent key. -/
def tsGroup (t : Tracer) (g : String) : Nat := (mapGet t.groupTS g).getD 0

/-- Go map read `t.spanTS[g][s]` inside the sort comparators: zero value `0`
for an absent key. -/
def tsSpan (t : Tracer) (g s : String) : Nat :=
  (mapGet ((mapGet t.spanTS g).getD []) s).getD 0

/-- Embeds `ListGroups` (tracer.go): the group keys, in model order. -/
def ListGroups (t : Tracer) : List String := t.logs.map Prod.fst

/-- Embeds `ListSpans` (tracer.go): the span keys of a group, `[]` when the
group is unknown (`range` over the `nil` map). -/
def ListSpans (t : Tracer) (group : String) : List String :=
  ((mapGet t.logs group).getD []).map Prod.fst

/-- Embeds `Logs` (tracer.go): `[]` for an unknown group; otherwise the
group's spans sorted by span timestamp most recent first, each span's entries
sorted by entry time most recent first. -/
def Logs (t : Tracer) (group : String) : List (List LogEntry) :=
  match mapGet t.logs group with
  | none => []
  | some gm =>
    let spans := gm.map Prod.fst
    let spans := sortLe (fun a b => tsSpan t group b ≤ tsSpan t group a) spans
    spans.map (fun span =>
      sortLe (fun a b : LogEntry => b.time ≤ a.time) ((mapGet gm span).getD []))

/-- Embeds `strings.HasPrefix(s, pre)` on the char level (for valid UTF-8 a
char-wise prefix is the same as Go's byte-wise prefix). -/
def charsStarts : List Char → List Char → Bool
  | [], _ => true
  | _ :: _, [] => false
  | c :: p, d :: s => c = d && charsStarts p s

/-- Embeds `strings.HasPrefix` (pre first matches the char-list helper). -/
def strStarts (s pre : String) : Bool := charsStarts pre.data s.data

/-- Hex digit of `encoding/json` (lowercase, `"0123456789abcdef"`). -/
def hexDig (n : Nat) : Char :=
  if n < 10 then Char.ofNat (48 + n) else Char.ofNat (87 + n)

/-- A `\uXXXX` escape, four lowercase hex digits, as `encoding/json` emits
for control characters, `<`, `>`, `&`, U+2028 and U+2029. -/
def uEsc (c : Char) : List Char :=
  ['\\', 'u', hexDig (c.toNat / 4096 % 16), hexDig (c.toNat / 256 % 16),
   hexDig (c.toNat / 16 % 16), hexDig (c.toNat % 16)]

/-- Escape of one character exactly as Go's `json.Marshal` of a string emits
it (HTML escaping on, the default): `"` and `\` and the three named controls
get two-character escapes, other controls and `<` `>` `&` and U+2028/U+2029
get `\uXXXX`, everything else is copied. -/
def escChar (c : Char) : List Char :=
  if c = '"' then ['\\', '"']
  else if c = '\\' then ['\\', '\\']
  else if c = '\n' then ['\\', 'n']
  else if c = '\r' then ['\\', 'r']
  else if c = '\t' then ['\\', 't']
  else if c = '<' ∨ c = '>' ∨ c = '&' then uEsc c
  else if c.toNat < 32 then uEsc c
  else if c.toNat = 8232 ∨ c.toNat = 8233 then uEsc c
  else [c]

/-- Escape of a character sequence. -/
def escList : List Char → List Char
  | [] => []
  | c :: cs => escChar c ++ escList cs

/-- Go `json.Marshal` of a string value: quoted, escaped. -/
def marshalString (s : String) : List Char := '"' :: (escList s.data ++ ['"'])

/-- Comma-join of rendered pieces (Go writes `,` before every element except
the first). -/
def joinComma : List (List Char) → List Char
  | [] => []
  | [x] => x
  | x :: xs => x ++ ',' :: joinComma xs

/-- Go `json.Marshal` of a `[]string`: compact array of marshalled strings
(the slice is always non-nil in `ToMap`, so empty renders as `[]`). -/
def marshalStrArr (xs : List String) : List Char :=
  '[' :: (joinComma (xs.map marshalString) ++ [']'])

/-- The in-memory snapshot shape of `ToMap`: group name to span name to
formatted lines.  The Go value is an unordered `map`; the model keeps the
association list in the order `ToMap` inserts (most recent first). -/
abbrev Snap := List (String × List (String × List String))

/-- One span row of the hand-built JSON buffer of `ToMap` (tracer.go): the
marshalled span name, `:`, and the marshalled string array. -/
def renderRow (r : String × List String) : List Char :=
  marshalString r.1 ++ ':' :: marshalStrArr r.2

/-- One group object of the hand-built JSON buffer of `ToMap` (tracer.go):
the span rows, comma-joined inside `{` `}`. -/
def renderGroupObj (rows : List (String × List String)) : List Char :=
  '{' :: (joinComma (rows.map renderRow) ++ ['}'])

/-- One group member of the hand-built JSON buffer of `ToMap` (tracer.go):
the marshalled group name, `:`, and its group object. -/
def renderGroup (p : String × List (String × List String)) : List Char :=
  marshalString p.1 ++ ':' :: renderGroupObj p.2

/-- The whole hand-built JSON buffer of `ToMap` (tracer.go): the group
members, comma-joined inside `{` `}`. -/
def renderSnap (d : Snap) : List Char :=
  '{' :: (joinComma (d.map renderGroup) ++ ['}'])

/-- Embeds `ToMap` (tracer.go).  `fm` abstracts
`entry.FormattedMessage(timezone, withExactTime)` — timezone resolution and
the relative-time rendering read the environment (tz database, wall clock),
so the formatter is passed as a function; every choice of timezone and
exact-time flag is one instance of `fm`.  Returns the nested mapping and the
hand-ordered JSON buffer. -/
def ToMap (t : Tracer) (fm : LogEntry → String) (groupFilter spanFilter : String) :
    Snap × String :=
  let groups := (t.logs.map Prod.fst).filter
    (fun g => decide (groupFilter = "") || strStarts g groupFilter)
  let groups := sortLe (fun a b => tsGroup t b ≤ tsGroup t a) groups
  let d : Snap := groups.map (fun g =>
    let spans := (mapGet t.logs g).getD []
    let spanNames := (spans.map Prod.fst).filter
      (fun sp => decide (spanFilter = "") || strStarts sp spanFilter)
    let spanNames := sortLe (fun a b => tsSpan t g b ≤ tsSpan t g a) spanNames
    (g, spanNames.map (fun sp =>
      let sorted := sortLe (fun a b : LogEntry => b.time ≤ a.time)
        ((mapGet spans sp).getD [])
      (sp, sorted.map fm))))
  (d, String.mk (renderSnap d))

/-- Value of one hex digit (lowercase or digit), as the snapshot parser reads
`\uXXXX` escapes back. -/
def hexVal (c : Char) : Option Nat :=
  if 48 ≤ c.toNat ∧ c.toNat ≤ 57 then some (c.toNat - 48)
  else if 97 ≤ c.toNat ∧ c.toNat ≤ 102 then some (c.toNat - 87)
  else none

/-- Value of a four-digit hex escape. -/
def hex4 (a b c d : Char) : Option Nat :=
  match hexVal a, hexVal b, hexVal c, hexVal d with
  | some w, some x, some y, some z => some (4096 * w + 256 * x + 16 * y + z)
  | _, _, _, _ => none

/-- The two-character escapes the renderer emits, decoded. -/
def unescChar (c : Char) : Option Char :=
  if c = '"' then some '"'
  else if c = '\\' then some '\\'
  else if c = 'n' then some '\n'
  else if c = 'r' then some '\r'
  else if c = 't' then some '\t'
  else none

/-- JSON string-body parser: consumes up to the closing quote, decoding the
escapes the renderer can emit, and returns the decoded chars and the rest of
the input. -/
def parseJStrAux : List Char → Option (List Char × List Char)
  | [] => none
  | c :: rest =>
    if c = '"' then some ([], rest)
    else if c = '\\' then
      match rest with
      | [] => none
      | e :: rest1 =>
        if e = 'u' then
          match rest1 with
          | d1 :: d2 :: d3 :: d4 :: rest2 =>
            match hex4 d1 d2 d3 d4 with
            | some n => (parseJStrAux rest2).map (fun p => (Char.ofNat n :: p.1, p.2))
            | none => none
          | _ => none
        else
          match unescChar e with
          | some u => (parseJStrAux rest1).map (fun p => (u :: p.1, p.2))
          | none => none
    else (parseJStrAux rest).map (fun p => (c :: p.1, p.2))

/-- JSON string parser: an opening quote, then the body. -/
def parseJStr (l : List Char) : Option (String × List Char) :=
  match l with
  | '"' :: rest => (parseJStrAux rest).map (fun p => (String.mk p.1, p.2))
  | _ => none

/-- Elements of a non-empty JSON string array, after the opening bracket;
`fuel` bounds the number of elements. -/
def parseArrTail : Nat → List Char → Option (List String × List Char)
  | 0, _ => none
  | fuel + 1, l =>
    match parseJStr l with
    | none => none
    | some (s, r) =>
      match r with
      | ',' :: r1 => (parseArrTail fuel r1).map (fun p => (s :: p.1, p.2))
      | ']' :: r1 => some ([s], r1)
      | _ => none

/-- JSON string-array parser. -/
def parseArr (fuel : Nat) (l : List Char) : Option (List String × List Char) :=
  match l with
  | '[' :: ']' :: rest => some ([], rest)
  | '[' :: rest => parseArrTail fuel rest
  | _ => none

/-- Members of a non-empty span object, after the opening brace. -/
def parseRowsTail : Nat → List Char → Option (List (String × List String) × List Char)
  | 0, _ => none
  | fuel + 1, l =>
    match parseJStr l with
    | none => none
    | some (sp, r) =>
      match r with
      | ':' :: r1 =>
        match parseArr fuel r1 with
        | none => none
        | some (xs, r2) =>
          match r2 with
          | ',' :: r3 => (parseRowsTail fuel r3).map (fun p => ((sp, xs) :: p.1, p.2))
          | '}' :: r3 => some ([(sp, xs)], r3)
          | _ => none
      | _ => none

/-- Span-object parser: a JSON object whose values are string arrays. -/
def parseGroupObj (fuel : Nat) (l : List Char) :
    Option (List (String × List String) × List Char) :=
  match l with
  | '{' :: '}' :: rest => some ([], rest)
  | '{' :: rest => parseRowsTail fuel rest
  | _ => none

/-- Members of a non-empty top-level object, after the opening brace. -/
def parseGroupsTail : Nat → List Char → Option (Snap × List Char)
  | 0, _ => none
  | fuel + 1, l =>
    match parseJStr l with
    | none => none
    | some (g, r) =>
      match r with
      | ':' :: r1 =>
        match parseGroupObj fuel r1 with
        | none => none
        | some (rows, r2) =>
          match r2 with
          | ',' :: r3 => (parseGroupsTail fuel r3).map (fun p => ((g, rows) :: p.1, p.2))
          | '}' :: r3 => some ([(g, rows)], r3)
          | _ => none
      | _ => none

/-- Snapshot parser: reads the serialized JSON byte form back into the nested
group-to-span-to-lines shape, requiring the whole input to be consumed. -/
def parseSnap (s : String) : Option Snap :=
  match s.data with
  | '{' :: '}' :: rest => if rest = [] then some [] else none
  | '{' :: rest =>
    match parseGroupsTail s.data.length rest with
    | some (d, []) => some d
    | _ => none
  | _ => none

/-- Fuel needed to parse one group object: one unit per span row plus the
row's array length. -/
def rowsCost (rows : List (String × List String)) : Nat :=
  rows.foldr (fun r a => 1 + r.2.length + a) 0

/-- Fuel needed to parse the top-level object: one unit per group plus the
group's rows cost. -/
def snapCost (d : Snap) : Nat :=
  d.foldr (fun g a => 1 + rowsCost g.2 + a) 0

/-- The entries of a span list carrying a given (message, level) pair. -/
def pairEntries (l : List LogEntry) (msg lvl : String) : List LogEntry :=
  l.filter (fun e => isDup msg lvl e)

/-- Dedup invariant of the store: within every stored span list, no two
entries share the same (message, level) pair. -/
def spanPairsNodup (t : Tracer) : Prop :=
  ∀ g gm s l, mapGet t.logs g = some gm → mapGet gm s = some l →
    (l.map (fun e => (e.message, e.level))).Nodup

/-- Capacity invariant of the store: every stored span list has at most
`numMessages` entries. -/
def spanLensOk (t : Tracer) : Prop :=
  ∀ g gm s l, mapGet t.logs g = some gm → mapGet gm s = some l →
    (l.length : Int) ≤ t.numMessages

/-- The same write repeated at a list of successive times. -/
def logRepeat (t : Tracer) (lvl g s msg : String) (ts : List Nat) : Tracer :=
  ts.foldl (fun t now => log t lvl g s msg now) t

/-- A small concrete store used to instantiate theorems: two spans of one
group, written at times 1 and 2. -/
def exTracer : Tracer :=
  Info (Info (NewTracerWithSizes 5 5 5) "g" "s1" "a" 1) "g" "s2" "b" 2

/-- The group bucket of `"g"` inside `exTracer`. -/
def exGroupMap : List (String × List LogEntry) :=
  [("s1", [⟨"g", "s1", "a", "INFO", 1, 1⟩]), ("s2", [⟨"g", "s2", "b", "INFO", 2, 1⟩])]

/-- A store of capacity 1/1/1 whose only group is named `""`. -/
def exEmptyGroupTracer : Tracer := Info (NewTracerWithSizes 1 1 1) "" "s" "m" 0

/-- A store of capacity 1/1/1 whose group `"g"` holds only the span named `""`. -/
def exEmptySpanTracer : Tracer := Info (NewTracerWithSizes 1 1 1) "g" "" "m" 0

/-- The group bucket of `"g"` inside `exEmptySpanTracer`. -/
def exEmptySpanBucket : List (String × List LogEntry) :=
  [("", [⟨"g", "", "m", "INFO", 0, 1⟩])]

/-- A message of 251 four-byte characters: 1004 UTF-8 bytes, over `maxMsgLen`. -/
def exLongMsg : String := String.mk (List.replicate 251 (Char.ofNat 65536))

/-! Association-list map lemmas. -/

theorem mapGet_mapSet_self {α : Type} (m : List (String × α)) (k : String) (v : α) :
    mapGet (mapSet m k v) k = some v := by
  induction m with
  | nil => simp [mapSet, mapGet]
  | cons p rest ih =>
    obtain ⟨k', v'⟩ := p
    by_cases h : k' = k
    · subst h; simp [mapSet, mapGet]
    · simp [mapSet, mapGet, h, ih]

theorem mapGet_mapSet_ne {α : Type} (m : List (String × α)) (k k₂ : String) (v : α)
    (h : k₂ ≠ k) : mapGet (mapSet m k v) k₂ = mapGet m k₂ := by
  have h' : ¬k = k₂ := fun e => h e.symm
  induction m with
  | nil => simp [mapSet, mapGet, h']
  | cons p rest ih =>
    obtain ⟨k', v'⟩ := p
    by_cases hk : k' = k
    · subst hk
      simp [mapSet, mapGet, h']
    · simp only [mapSet, if_neg hk, mapGet]
      by_cases hq : k' = k₂ <;> simp [hq, ih]

theorem mapDel_cons {α : Type} (k' k : String) (v' : α) (rest : List (String × α)) :
    mapDel ((k', v') :: rest) k =
      if k' = k then mapDel rest k else (k', v') :: mapDel rest k := by
  by_cases h : k' = k <;> simp [mapDel, List.filter_cons, h]

theorem mapGet_mapDel_self {α : Type} (m : List (String × α)) (k : String) :
    mapGet (mapDel m k) k = none := by
  induction m with
  | nil => simp [mapDel, mapGet]
  | cons p rest ih =>
    obtain ⟨k', v'⟩ := p
    rw [mapDel_cons]
    by_cases h : k' = k
    · simpa [h] using ih
    · simpa [mapGet, h] using ih

theorem mapGet_mapDel_ne {α : Type} (m : List (String × α)) (k k₂ : String)
    (h : k₂ ≠ k) : mapGet (mapDel m k) k₂ = mapGet m k₂ := by
  have h' : ¬k = k₂ := fun e => h e.symm
  induction m with
  | nil => simp [mapDel, mapGet]
  | cons p rest ih =>
    obtain ⟨k', v'⟩ := p
    rw [mapDel_cons]
    by_cases hk : k' = k
    · subst hk
      have hne : ¬k' = k₂ := fun e => h' e
      simp [mapGet, hne, ih]
    · by_cases hq : k' = k₂ <;> simp [mapGet, hk, hq, ih, h]

theorem mapGet_eq_none_iff {α : Type} (m : List (String × α)) (k : String) :
    mapGet m k = none ↔ k ∉ m.map Prod.fst := by
  induction m with
  | nil => simp [mapGet]
  | cons p rest ih =>
    obtain ⟨k', v'⟩ := p
    by_cases h : k' = k
    · subst h; simp [mapGet]
    · have h' : ¬k = k' := fun e => h e.symm
      simp [mapGet, h, ih, h']

theorem mapSet_of_not_mem {α : Type} (m : List (String × α)) (k : String) (v : α)
    (h : mapGet m k = none) : mapSet m k v = m ++ [(k, v)] := by
  induction m with
  | nil => simp [mapSet]
  | cons p rest ih =>
    obtain ⟨k', v'⟩ := p
    by_cases hk : k' = k
    · simp [mapGet, hk] at h
    · simp only [mapGet, if_neg hk] at h
      simp [mapSet, hk, ih h]

theorem mapSet_keys_of_mem {α : Type} (m : List (String × α)) (k : String) (v w : α)
    (h : mapGet m k = some w) : (mapSet m k v).map Prod.fst = m.map Prod.fst := by
  induction m with
  | nil => simp [mapGet] at h
  | cons p rest ih =>
    obtain ⟨k', v'⟩ := p
    by_cases hk : k' = k
    · subst hk; simp [mapSet]
    · simp only [mapGet, if_neg hk] at h
      simp [mapSet, hk, ih h]

theorem mapDel_of_not_mem {α : Type} (m : List (String × α)) (k : String)
    (h : mapGet m k = none) : mapDel m k = m := by
  induction m with
  | nil => simp [mapDel]
  | cons p rest ih =>
    obtain ⟨k', v'⟩ := p
    rw [mapDel_cons]
    by_cases hk : k' = k
    · simp [mapGet, hk] at h
    · simp only [mapGet, if_neg hk] at h
      simp [hk, ih h]

/-! Sorting lemmas. -/

theorem insLe_perm {α : Type} (le : α → α → Bool) (x : α) (l : List α) :
    (insLe le x l).Perm (x :: l) := by
  induction l with
  | nil => simp [insLe]
  | cons y ys ih =>
    by_cases h : le x y = true
    · simp [insLe, h]
    · simp only [insLe, if_neg h]
      exact (ih.cons y).trans (List.Perm.swap x y ys)

theorem sortLe_perm {α : Type} (le : α → α → Bool) (l : List α) :
    (sortLe le l).Perm l := by
  induction l with
  | nil => simp [sortLe]
  | cons x xs ih =>
    exact (insLe_perm le x (sortLe le xs)).trans (ih.cons x)

theorem insLe_pairwise {α : Type} (le : α → α → Bool)
    (htot : ∀ a b, le a b = true ∨ le b a = true)
    (htr : ∀ a b c, le a b = true → le b c = true → le a c = true)
    (x : α) (l : List α) (h : l.Pairwise (fun a b => le a b = true)) :
    (insLe le x l).Pairwise (fun a b => le a b = true) := by
  induction l with
  | nil => simp [insLe]
  | cons y ys ih =>
    rcases h with _ | ⟨hy, hys⟩
    by_cases hxy : le x y = true
    · simp only [insLe, if_pos hxy]
      refine List.Pairwise.cons ?_ (List.Pairwise.cons hy hys)
      intro z hz
      rcases List.mem_cons.mp hz with rfl | hz
      · exact hxy
      · exact htr x y z hxy (hy z hz)
    · have hyx : le y x = true := (htot x y).resolve_left hxy
      simp only [insLe, if_neg hxy]
      refine List.Pairwise.cons ?_ (ih hys)
      intro z hz
      have hz' : z = x ∨ z ∈ ys := by
        have := (insLe_perm le x ys).mem_iff.mp hz
        simpa using this
      rcases hz' with rfl | hz'
      · exact hyx
      · exact hy z hz'

theorem sortLe_pairwise {α : Type} (le : α → α → Bool)
    (htot : ∀ a b, le a b = true ∨ le b a = true)
    (htr : ∀ a b c, le a b = true → le b c = true → le a c = true)
    (l : List α) : (sortLe le l).Pairwise (fun a b => le a b = true) := by
  induction l with
  | nil => simp [sortLe]
  | cons x xs ih => exact insLe_pairwise le htot htr x (sortLe le xs) ih

theorem sortLe_key_pairwise {α : Type} (f : α → Nat) (l : List α) :
    (sortLe (fun a b => decide (f b ≤ f a)) l).Pairwise (fun a b => f b ≤ f a) := by
  have h := sortLe_pairwise (fun a b => decide (f b ≤ f a))
    (fun a b => by
      rcases Nat.le_total (f b) (f a) with h | h
      · exact Or.inl (by simpa using h)
      · exact Or.inr (by simpa using h))
    (fun a b c hab hbc => by
      simp only [decide_eq_true_eq] at hab hbc ⊢
      exact le_trans hbc hab) l
  exact h.imp (by simp)

/-- C10 helper: the if-chain of `NewTracerWithSizes` always yields a size of
at least one. -/
theorem newTracer_sizes_pos (a b c : Int) :
    1 ≤ (NewTracerWithSizes a b c).numGroups ∧
      1 ≤ (NewTracerWithSizes a b c).numSpans ∧
      1 ≤ (NewTracerWithSizes a b c).numMessages := by
  refine ⟨?_, ?_, ?_⟩ <;>
    simp only [NewTracerWithSizes, DefaultGroupCount, DefaultSpanCount,
      DefaultMessageCount] <;>
    split <;> omega

/-- C10: a non-positive (`< 1`) size falls back to its default (40 groups,
60 spans per group, 60 messages per span); a positive size, including 1, is
stored as given; hence every stored capacity is at least 1. -/
theorem C10_capacity_defaults (a b c : Int) :
    (NewTracerWithSizes a b c).numGroups = (if a < 1 then 40 else a) ∧
      (NewTracerWithSizes a b c).numSpans = (if b < 1 then 60 else b) ∧
      (NewTracerWithSizes a b c).numMessages = (if c < 1 then 60 else c) ∧
      1 ≤ (NewTracerWithSizes a b c).numGroups ∧
      1 ≤ (NewTracerWithSizes a b c).numSpans ∧
      1 ≤ (NewTracerWithSizes a b c).numMessages := by
  refine ⟨rfl, rfl, rfl, ?_⟩
  exact newTracer_sizes_pos a b c

/-- C9: after `Disable`, a write of any severity, group, span and message
leaves the store exactly unchanged; reads (`Logs`, `ListGroups`, `ListSpans`,
`ToMap`) return the pre-disable state; `Enable` after `Disable` restores
exactly the state `Enable` alone would give, so subsequent writes mutate the
previously existing state normally. -/
theorem C9_disable_noop_enable_resumes (t : Tracer) (lvl g s msg : String)
    (now : Nat) (fm : LogEntry → String) (gf sf : String) :
    (Disable t).logs = t.logs ∧
      (Disable t).groupTS = t.groupTS ∧
      (Disable t).spanTS = t.spanTS ∧
      log (Disable t) lvl g s msg now = Disable t ∧
      Logs (Disable t) g = Logs t g ∧
      ListGroups (Disable t) = ListGroups t ∧
      ListSpans (Disable t) g = ListSpans t g ∧
      ToMap (Disable t) fm gf sf = ToMap t fm gf sf ∧
      Enable (Disable t) = Enable t ∧
      log (Enable (Disable t)) lvl g s msg now = log (Enable t) lvl g s msg now := by
  refine ⟨rfl, rfl, rfl, ?_, rfl, rfl, rfl, rfl, rfl, rfl⟩
  simp [log, Disable]

/-- C1 (exhibiting the capacity-bound failure): with `maxGroups = 1`, write
to group `""`, then to a new group `"g"`.  The second write runs the
group-eviction branch, the oldest-group scan selects `""`, the
`oldestGroup != ""` guard skips the deletion, and the store ends with two
groups — the group with the oldest timestamp was not removed and the group
count exceeds `maxGroups`. -/
theorem C1_empty_group_escapes_eviction :
    ListGroups (Info (Info (NewTracerWithSizes 1 1 1) "" "s" "m" 0) "g" "s" "m" 1)
        = ["", "g"] ∧
      (Info (Info (NewTracerWithSizes 1 1 1) "" "s" "m" 0) "g" "s" "m" 1).numGroups = 1 := by
  constructor
  · decide
  · decide

/-! JSON string round-trip lemmas (for C5). -/

theorem hexVal_hexDig : ∀ n, n < 16 → hexVal (hexDig n) = some n := by decide

theorem parseJStrAux_quote (tail : List Char) :
    parseJStrAux ('"' :: tail) = some ([], tail) := by
  rw [parseJStrAux.eq_def]
  simp

theorem parseJStrAux_u (d1 d2 d3 d4 : Char) (n : Nat) (tail : List Char)
    (h : hex4 d1 d2 d3 d4 = some n) :
    parseJStrAux ('\\' :: 'u' :: d1 :: d2 :: d3 :: d4 :: tail) =
      (parseJStrAux tail).map (fun p => (Char.ofNat n :: p.1, p.2)) := by
  rw [parseJStrAux.eq_def]
  simp [h]

theorem parseJStrAux_esc (e u : Char) (tail : List Char)
    (he : e ≠ 'u') (h : unescChar e = some u) :
    parseJStrAux ('\\' :: e :: tail) =
      (parseJStrAux tail).map (fun p => (u :: p.1, p.2)) := by
  rw [parseJStrAux.eq_def]
  simp [he, h]

theorem parseJStrAux_plain (c : Char) (tail : List Char)
    (h1 : c ≠ '"') (h2 : c ≠ '\\') :
    parseJStrAux (c :: tail) =
      (parseJStrAux tail).map (fun p => (c :: p.1, p.2)) := by
  rw [parseJStrAux.eq_def]
  simp [h1, h2]

theorem hex4_digits (m : Nat) (h : m < 65536) :
    hex4 (hexDig (m / 4096 % 16)) (hexDig (m / 256 % 16))
      (hexDig (m / 16 % 16)) (hexDig (m % 16)) = some m := by
  have e1 := hexVal_hexDig (m / 4096 % 16) (Nat.mod_lt _ (by norm_num))
  have e2 := hexVal_hexDig (m / 256 % 16) (Nat.mod_lt _ (by norm_num))
  have e3 := hexVal_hexDig (m / 16 % 16) (Nat.mod_lt _ (by norm_num))
  have e4 := hexVal_hexDig (m % 16) (Nat.mod_lt _ (by norm_num))
  simp only [hex4, e1, e2, e3, e4]
  congr 1
  omega

theorem uEsc_rt (c : Char) (h : c.toNat < 65536) (tail : List Char) :
    parseJStrAux (uEsc c ++ tail) =
      (parseJStrAux tail).map (fun p => (c :: p.1, p.2)) := by
  have h4 := hex4_digits c.toNat h
  simp only [uEsc, List.cons_append, List.nil_append]
  rw [parseJStrAux_u _ _ _ _ _ _ h4, Char.ofNat_toNat]

theorem escChar_rt (c : Char) (tail : List Char) :
    parseJStrAux (escChar c ++ tail) =
      (parseJStrAux tail).map (fun p => (c :: p.1, p.2)) := by
  by_cases h1 : c = '"'
  · subst h1
    have he : escChar '"' = ['\\', '"'] := by decide
    rw [he]
    exact parseJStrAux_esc '"' '"' tail (by decide) (by decide)
  · by_cases h2 : c = '\\'
    · subst h2
      have he : escChar '\\' = ['\\', '\\'] := by decide
      rw [he]
      exact parseJStrAux_esc '\\' '\\' tail (by decide) (by decide)
    · by_cases h3 : c = '\n'
      · subst h3
        have he : escChar '\n' = ['\\', 'n'] := by decide
        rw [he]
        exact parseJStrAux_esc 'n' '\n' tail (by decide) (by decide)
      · by_cases h4 : c = '\r'
        · subst h4
          have he : escChar '\r' = ['\\', 'r'] := by decide
          rw [he]
          exact parseJStrAux_esc 'r' '\r' tail (by decide) (by decide)
        · by_cases h5 : c = '\t'
          · subst h5
            have he : escChar '\t' = ['\\', 't'] := by decide
            rw [he]
            exact parseJStrAux_esc 't' '\t' tail (by decide) (by decide)
          · by_cases h6 : c = '<' ∨ c = '>' ∨ c = '&'
            · have hb : c.toNat < 65536 := by
                rcases h6 with rfl | rfl | rfl <;> decide
              simp only [escChar, if_neg h1, if_neg h2, if_neg h3, if_neg h4,
                if_neg h5, if_pos h6]
              exact uEsc_rt c hb tail
            · by_cases h7 : c.toNat < 32
              · have hb : c.toNat < 65536 := by omega
                simp only [escChar, if_neg h1, if_neg h2, if_neg h3, if_neg h4,
                  if_neg h5, if_neg h6, if_pos h7]
                exact uEsc_rt c hb tail
              · by_cases h8 : c.toNat = 8232 ∨ c.toNat = 8233
                · have hb : c.toNat < 65536 := by omega
                  simp only [escChar, if_neg h1, if_neg h2, if_neg h3, if_neg h4,
                    if_neg h5, if_neg h6, if_neg h7, if_pos h8]
                  exact uEsc_rt c hb tail
                · simp only [escChar, if_neg h1, if_neg h2, if_neg h3, if_neg h4,
                    if_neg h5, if_neg h6, if_neg h7, if_neg h8,
                    List.cons_append, List.nil_append]
                  exact parseJStrAux_plain c tail h1 h2

theorem escList_rt (cs : List Char) (tail : List Char) :
    parseJStrAux (escList cs ++ tail) =
      (parseJStrAux tail).map (fun p => (cs ++ p.1, p.2)) := by
  induction cs with
  | nil =>
    simp only [escList, List.nil_append, List.append_nil]
    cases parseJStrAux tail <;> simp
  | cons c cs ih =>
    simp only [escList, List.append_assoc]
    rw [escChar_rt, ih, Option.map_map]
    rfl

theorem parseJStr_marshal (s : String) (rest : List Char) :
    parseJStr (marshalString s ++ rest) = some (s, rest) := by
  have : marshalString s ++ rest = '"' :: (escList s.data ++ ('"' :: rest)) := by
    simp [marshalString]
  rw [this]
  show (parseJStrAux (escList s.data ++ ('"' :: rest))).map _ = _
  rw [escList_rt, parseJStrAux_quote]
  simp

theorem joinComma_cons_head {α : Type} (f : α → List Char)
    (hf : ∀ a, ∃ K, f a = '"' :: K) (x : α) (l : List α) :
    ∃ K, joinComma ((x :: l).map f) = '"' :: K := by
  obtain ⟨K, hK⟩ := hf x
  cases l with
  | nil => exact ⟨K, by simp [joinComma, hK]⟩
  | cons y ys =>
    exact ⟨K ++ ',' :: joinComma ((y :: ys).map f), by simp [joinComma, hK]⟩

theorem marshalString_head (s : String) : ∃ K, marshalString s = '"' :: K :=
  ⟨escList s.data ++ ['"'], rfl⟩

theorem renderRow_head (r : String × List String) : ∃ K, renderRow r = '"' :: K := by
  exact ⟨(escList r.1.data ++ ['"']) ++ ':' :: marshalStrArr r.2, by simp [renderRow, marshalString]⟩

theorem renderGroup_head (p : String × List (String × List String)) :
    ∃ K, renderGroup p = '"' :: K := by
  exact ⟨(escList p.1.data ++ ['"']) ++ ':' :: renderGroupObj p.2,
    by simp [renderGroup, marshalString]⟩

theorem parseArrTail_rt (xs : List String) : ∀ (x : String) (rest : List Char) (fuel : Nat),
    xs.length < fuel →
    parseArrTail fuel (joinComma ((x :: xs).map marshalString) ++ (']' :: rest)) =
      some (x :: xs, rest) := by
  induction xs with
  | nil =>
    intro x rest fuel hf
    obtain ⟨f, rfl⟩ : ∃ f, fuel = f + 1 := ⟨fuel - 1, by omega⟩
    have hj : joinComma (([x] : List String).map marshalString) ++ (']' :: rest) =
        marshalString x ++ (']' :: rest) := by
      simp [joinComma]
    rw [hj]
    simp only [parseArrTail, parseJStr_marshal]
  | cons x' xs ih =>
    intro x rest fuel hf
    obtain ⟨f, rfl⟩ : ∃ f, fuel = f + 1 := ⟨fuel - 1, by omega⟩
    have hj : joinComma ((x :: x' :: xs).map marshalString) ++ (']' :: rest) =
        marshalString x ++
          (',' :: (joinComma ((x' :: xs).map marshalString) ++ (']' :: rest))) := by
      simp [joinComma]
    rw [hj]
    simp only [parseArrTail, parseJStr_marshal]
    rw [ih x' rest f (by simpa using Nat.lt_of_succ_lt_succ hf)]
    rfl

theorem parseArr_rt (xs : List String) (rest : List Char) (fuel : Nat)
    (h : xs.length ≤ fuel) :
    parseArr fuel (marshalStrArr xs ++ rest) = some (xs, rest) := by
  cases xs with
  | nil =>
    have hj : marshalStrArr ([] : List String) ++ rest = '[' :: ']' :: rest := by
      simp [marshalStrArr, joinComma]
    rw [hj]
    simp [parseArr]
  | cons x xs =>
    obtain ⟨K, hK⟩ := joinComma_cons_head marshalString marshalString_head x xs
    have hj : marshalStrArr (x :: xs) ++ rest = '[' :: '"' :: (K ++ (']' :: rest)) := by
      simp only [marshalStrArr]
      rw [hK]
      simp
    rw [hj]
    have h2 : parseArr fuel ('[' :: '"' :: (K ++ (']' :: rest))) =
        parseArrTail fuel ('"' :: (K ++ (']' :: rest))) := by
      simp [parseArr]
    rw [h2]
    have h3 : ('"' :: (K ++ (']' :: rest)) : List Char) =
        joinComma ((x :: xs).map marshalString) ++ (']' :: rest) := by
      rw [hK]
      simp
    rw [h3]
    exact parseArrTail_rt xs x rest fuel (by simpa using Nat.lt_of_lt_of_le (Nat.lt_succ_self _) (by simpa using h))

theorem parseRowsTail_rt (rows : List (String × List String)) :
    ∀ (row : String × List String) (rest : List Char) (fuel : Nat),
    rowsCost (row :: rows) ≤ fuel →
    parseRowsTail fuel (joinComma ((row :: rows).map renderRow) ++ ('}' :: rest)) =
      some (row :: rows, rest) := by
  induction rows with
  | nil =>
    intro row rest fuel hf
    have hc : 1 + row.2.length ≤ fuel := by
      simpa [rowsCost] using hf
    obtain ⟨f, rfl⟩ : ∃ f, fuel = f + 1 := ⟨fuel - 1, by omega⟩
    have hj : joinComma (([row] : List (String × List String)).map renderRow) ++ ('}' :: rest) =
        marshalString row.1 ++ (':' :: (marshalStrArr row.2 ++ ('}' :: rest))) := by
      simp [joinComma, renderRow]
    rw [hj]
    simp only [parseRowsTail, parseJStr_marshal]
    rw [parseArr_rt row.2 ('}' :: rest) f (by omega)]
    rfl
  | cons row' rows ih =>
    intro row rest fuel hf
    have hc : 1 + row.2.length + rowsCost (row' :: rows) ≤ fuel := by
      simpa [rowsCost] using hf
    obtain ⟨f, rfl⟩ : ∃ f, fuel = f + 1 := ⟨fuel - 1, by omega⟩
    have hj : joinComma ((row :: row' :: rows).map renderRow) ++ ('}' :: rest) =
        marshalString row.1 ++ (':' :: (marshalStrArr row.2 ++
          (',' :: (joinComma ((row' :: rows).map renderRow) ++ ('}' :: rest))))) := by
      simp [joinComma, renderRow]
    rw [hj]
    simp only [parseRowsTail, parseJStr_marshal]
    rw [parseArr_rt row.2 _ f (by omega)]
    show (parseRowsTail f (joinComma ((row' :: rows).map renderRow) ++ ('}' :: rest))).map
        (fun p => (row :: p.1, p.2)) = _
    rw [ih row' rest f (by simp [rowsCost] at hc ⊢; omega)]
    rfl

theorem parseGroupObj_rt (rows : List (String × List String)) (rest : List Char)
    (fuel : Nat) (h : rowsCost rows ≤ fuel) :
    parseGroupObj fuel (renderGroupObj rows ++ rest) = some (rows, rest) := by
  cases rows with
  | nil =>
    have hj : renderGroupObj [] ++ rest = '{' :: '}' :: rest := by
      simp [renderGroupObj, joinComma]
    rw [hj]
    simp [parseGroupObj]
  | cons row rows =>
    obtain ⟨K, hK⟩ := joinComma_cons_head renderRow renderRow_head row rows
    have hj : renderGroupObj (row :: rows) ++ rest = '{' :: '"' :: (K ++ ('}' :: rest)) := by
      simp only [renderGroupObj]
      rw [hK]
      simp
    rw [hj]
    have h2 : parseGroupObj fuel ('{' :: '"' :: (K ++ ('}' :: rest))) =
        parseRowsTail fuel ('"' :: (K ++ ('}' :: rest))) := by
      simp [parseGroupObj]
    rw [h2]
    have h3 : ('"' :: (K ++ ('}' :: rest)) : List Char) =
        joinComma ((row :: rows).map renderRow) ++ ('}' :: rest) := by
      rw [hK]
      simp
    rw [h3]
    exact parseRowsTail_rt rows row rest fuel h

theorem parseGroupsTail_rt (gs : Snap) :
    ∀ (g : String × List (String × List String)) (rest : List Char) (fuel : Nat),
    snapCost (g :: gs) ≤ fuel →
    parseGroupsTail fuel (joinComma ((g :: gs).map renderGroup) ++ ('}' :: rest)) =
      some (g :: gs, rest) := by
  induction gs with
  | nil =>
    intro g rest fuel hf
    have hc : 1 + rowsCost g.2 ≤ fuel := by
      simpa [snapCost] using hf
    obtain ⟨f, rfl⟩ : ∃ f, fuel = f + 1 := ⟨fuel - 1, by omega⟩
    have hj : joinComma (([g] : Snap).map renderGroup) ++ ('}' :: rest) =
        marshalString g.1 ++ (':' :: (renderGroupObj g.2 ++ ('}' :: rest))) := by
      simp [joinComma, renderGroup]
    rw [hj]
    simp only [parseGroupsTail, parseJStr_marshal]
    rw [parseGroupObj_rt g.2 ('}' :: rest) f (by omega)]
    rfl
  | cons g' gs ih =>
    intro g rest fuel hf
    have hc : 1 + rowsCost g.2 + snapCost (g' :: gs) ≤ fuel := by
      simpa [snapCost] using hf
    obtain ⟨f, rfl⟩ : ∃ f, fuel = f + 1 := ⟨fuel - 1, by omega⟩
    have hj : joinComma ((g :: g' :: gs).map renderGroup) ++ ('}' :: rest) =
        marshalString g.1 ++ (':' :: (renderGroupObj g.2 ++
          (',' :: (joinComma ((g' :: gs).map renderGroup) ++ ('}' :: rest))))) := by
      simp [joinComma, renderGroup]
    rw [hj]
    simp only [parseGroupsTail, parseJStr_marshal]
    rw [parseGroupObj_rt g.2 _ f (by omega)]
    show (parseGroupsTail f (joinComma ((g' :: gs).map renderGroup) ++ ('}' :: rest))).map
        (fun p => (g :: p.1, p.2)) = _
    rw [ih g' rest f (by simp [snapCost] at hc ⊢; omega)]
    rfl

theorem marshalString_len (s : String) : 2 ≤ (marshalString s).length := by
  simp [marshalString]

theorem arr_join_len (xs : List String) :
    xs.length ≤ (joinComma (xs.map marshalString)).length := by
  induction xs with
  | nil => simp [joinComma]
  | cons x xs ih =>
    cases xs with
    | nil =>
      have := marshalString_len x
      simp [joinComma]
      omega
    | cons y ys =>
      have h1 := marshalString_len x
      have h2 := ih
      simp only [List.map, joinComma, List.length_append, List.length_cons] at h2 ⊢
      omega

theorem renderRow_len (r : String × List String) :
    1 + r.2.length ≤ (renderRow r).length := by
  have h1 := marshalString_len r.1
  have h2 := arr_join_len r.2
  simp only [renderRow, marshalStrArr, List.length_append, List.length_cons,
    List.length_nil] at h2 ⊢
  omega

theorem rows_join_len (rows : List (String × List String)) :
    rowsCost rows ≤ (joinComma (rows.map renderRow)).length := by
  induction rows with
  | nil => simp [joinComma, rowsCost]
  | cons r rows ih =>
    cases rows with
    | nil =>
      have := renderRow_len r
      simp only [rowsCost, List.foldr, Nat.add_zero, List.map, joinComma]
      omega
    | cons r' rs =>
      have h1 := renderRow_len r
      have h2 := ih
      simp only [rowsCost, List.foldr, List.map, joinComma, List.length_append,
        List.length_cons] at h2 ⊢
      omega

theorem renderGroup_len (g : String × List (String × List String)) :
    1 + rowsCost g.2 ≤ (renderGroup g).length := by
  have h1 := marshalString_len g.1
  have h2 := rows_join_len g.2
  simp only [renderGroup, renderGroupObj, List.length_append, List.length_cons,
    List.length_nil] at h2 ⊢
  omega

theorem snap_join_len (d : Snap) :
    snapCost d ≤ (joinComma (d.map renderGroup)).length := by
  induction d with
  | nil => simp [joinComma, snapCost]
  | cons g gs ih =>
    cases gs with
    | nil =>
      have := renderGroup_len g
      simp only [snapCost, List.foldr, Nat.add_zero, List.map, joinComma]
      omega
    | cons g' gs' =>
      have h1 := renderGroup_len g
      have h2 := ih
      simp only [snapCost, List.foldr, List.map, joinComma, List.length_append,
        List.length_cons] at h2 ⊢
      omega

theorem parseSnap_render (d : Snap) : parseSnap (String.mk (renderSnap d)) = some d := by
  cases d with
  | nil => rfl
  | cons g gs =>
    obtain ⟨K, hK⟩ := joinComma_cons_head renderGroup renderGroup_head g gs
    have hr : renderSnap (g :: gs) = '{' :: '"' :: (K ++ ['}']) := by
      simp only [renderSnap]
      rw [hK]
      simp
    rw [hr]
    have h2 : parseSnap (String.mk ('{' :: '"' :: (K ++ ['}']))) =
        (match parseGroupsTail (('{' :: '"' :: (K ++ ['}']) : List Char)).length
            ('"' :: (K ++ ['}'])) with
          | some (d', []) => some d'
          | _ => none) := by
      simp [parseSnap]
    rw [h2]
    have h3 : ('"' :: (K ++ ['}']) : List Char) =
        joinComma ((g :: gs).map renderGroup) ++ ('}' :: ([] : List Char)) := by
      rw [hK]
      simp
    have h4 : parseGroupsTail (('{' :: '"' :: (K ++ ['}']) : List Char)).length
        ('"' :: (K ++ ['}'])) = some (g :: gs, []) := by
      rw [h3]
      refine parseGroupsTail_rt gs g [] _ ?_
      have h5 := snap_join_len (g :: gs)
      simp only [List.length_cons, List.length_append, List.length_nil] at h5 ⊢
      omega
    rw [h4]

/-- C5: for every store state, every message formatter (covering every
timezone and exact-time flag) and every pair of prefix filters, the two
results of `ToMap` agree element-for-element: parsing the returned JSON byte
form recovers exactly the in-memory nested mapping — the same groups, the
same spans, the same formatted-string sequences, and conversely the mapping
renders back to the byte form. -/
theorem C5_snapshot_json_agrees_with_map (t : Tracer) (fm : LogEntry → String)
    (groupFilter spanFilter : String) :
    parseSnap ((ToMap t fm groupFilter spanFilter).2) =
      some ((ToMap t fm groupFilter spanFilter).1) :=
  parseSnap_render ((ToMap t fm groupFilter spanFilter).1)

theorem map_fst_of_tag {β : Type} (f : String → β) (l : List String) :
    ((l.map (fun g => (g, f g))).map Prod.fst) = l := by
  induction l with
  | nil => rfl
  | cons x xs ih => simp [ih]

/-- C6: the serialized snapshot is byte-for-byte the rendering of the nested
mapping with its keys emitted in list order, the top-level group keys stand
in most-recently-written-first order (group timestamps are non-increasing
along the emitted key sequence), and the span keys inside each group object
likewise stand in most-recently-written-first order. -/
theorem C6_snapshot_key_order (t : Tracer) (fm : LogEntry → String)
    (groupFilter spanFilter : String) :
    (ToMap t fm groupFilter spanFilter).2 =
        String.mk (renderSnap ((ToMap t fm groupFilter spanFilter).1)) ∧
      (((ToMap t fm groupFilter spanFilter).1).map Prod.fst).Pairwise
        (fun a b => tsGroup t b ≤ tsGroup t a) ∧
      ∀ p ∈ (ToMap t fm groupFilter spanFilter).1,
        (p.2.map Prod.fst).Pairwise (fun a b => tsSpan t p.1 b ≤ tsSpan t p.1 a) := by
  refine ⟨rfl, ?_, ?_⟩
  · show ((((sortLe (fun a b => tsGroup t b ≤ tsGroup t a)
        ((t.logs.map Prod.fst).filter
          (fun g => decide (groupFilter = "") || strStarts g groupFilter)))).map
            _).map Prod.fst).Pairwise _
    rw [map_fst_of_tag]
    exact sortLe_key_pairwise (tsGroup t) _
  · intro p hp
    simp only [ToMap, List.mem_map] at hp
    obtain ⟨g, hg, rfl⟩ := hp
    show (((sortLe (fun a b => tsSpan t g b ≤ tsSpan t g a) _).map
        (fun sp => (sp, _))).map Prod.fst).Pairwise _
    rw [map_fst_of_tag]
    exact sortLe_key_pairwise (tsSpan t g) _

/-- C7: `Logs` returns `[]` (not an error) for an unknown group, and for a
known group it returns one inner list per stored span, listed along a
permutation of the group's span keys that is ordered by span "last written"
timestamp most recent first; each inner list is a permutation of the stored
span list, ordered by entry `lastSeen` most recent first. -/
theorem C7_logs_ordering (t : Tracer) (g : String) :
    (mapGet t.logs g = none → Logs t g = []) ∧
      (∀ gm, mapGet t.logs g = some gm →
        ∃ names : List String, names.Perm (gm.map Prod.fst) ∧
          names.Pairwise (fun a b => tsSpan t g b ≤ tsSpan t g a) ∧
          Logs t g = names.map (fun span =>
            sortLe (fun a b : LogEntry => b.time ≤ a.time) ((mapGet gm span).getD [])) ∧
          ∀ span,
            (sortLe (fun a b : LogEntry => b.time ≤ a.time)
                ((mapGet gm span).getD [])).Perm ((mapGet gm span).getD []) ∧
              (sortLe (fun a b : LogEntry => b.time ≤ a.time)
                ((mapGet gm span).getD [])).Pairwise (fun a b => b.time ≤ a.time)) := by
  constructor
  · intro h
    simp [Logs, h]
  · intro gm hgm
    refine ⟨sortLe (fun a b => tsSpan t g b ≤ tsSpan t g a) (gm.map Prod.fst),
      sortLe_perm _ _, sortLe_key_pairwise (tsSpan t g) _, ?_, ?_⟩
    · simp [Logs, hgm]
    · intro span
      exact ⟨sortLe_perm _ _, sortLe_key_pairwise (fun e : LogEntry => e.time) _⟩

theorem C7_logs_ordering_witness :
    Logs exTracer "nope" = [] ∧
      ∃ names : List String, names.Perm (exGroupMap.map Prod.fst) ∧
        names.Pairwise (fun a b => tsSpan exTracer "g" b ≤ tsSpan exTracer "g" a) ∧
        Logs exTracer "g" = names.map (fun span =>
          sortLe (fun a b : LogEntry => b.time ≤ a.time)
            ((mapGet exGroupMap span).getD [])) ∧
        ∀ span,
          (sortLe (fun a b : LogEntry => b.time ≤ a.time)
              ((mapGet exGroupMap span).getD [])).Perm ((mapGet exGroupMap span).getD []) ∧
            (sortLe (fun a b : LogEntry => b.time ≤ a.time)
              ((mapGet exGroupMap span).getD [])).Pairwise (fun a b => b.time ≤ a.time) :=
  ⟨(C7_logs_ordering exTracer "nope").1 (by decide),
    (C7_logs_ordering exTracer "g").2 exGroupMap (by decide)⟩

/-! Structural lemmas about the bookkeeping steps of `log`. -/

theorem ensureGroup_frame (t : Tracer) (group g' : String)
    (gm' : List (String × List LogEntry))
    (h : mapGet (ensureGroup t group).logs g' = some gm') :
    mapGet t.logs g' = some gm' ∨ (g' = group ∧ gm' = []) := by
  simp only [ensureGroup] at h
  cases hg : mapGet t.logs group with
  | some v =>
    rw [hg] at h
    exact Or.inl h
  | none =>
    rw [hg] at h
    by_cases he : g' = group
    · subst he
      rw [mapGet_mapSet_self] at h
      exact Or.inr ⟨rfl, (Option.some.inj h).symm⟩
    · rw [mapGet_mapSet_ne _ _ _ _ he] at h
      split at h
      · split at h
        · simp only at h
          by_cases ho : g' = findOldest t.groupTS
          · rw [ho, mapGet_mapDel_self] at h
            cases h
          · rw [mapGet_mapDel_ne _ _ _ ho] at h
            exact Or.inl h
        · exact Or.inl h
      · exact Or.inl h

theorem ensureGroup_target (t : Tracer) (group : String) :
    ∃ gm, mapGet (ensureGroup t group).logs group = some gm ∧
      (mapGet t.logs group = some gm ∨ gm = []) := by
  cases hg : mapGet t.logs group with
  | some v =>
    refine ⟨v, ?_, Or.inl rfl⟩
    simp only [ensureGroup, hg]
  | none =>
    refine ⟨[], ?_, Or.inr rfl⟩
    simp only [ensureGroup, hg]
    exact mapGet_mapSet_self _ _ _

theorem ensureGroup_meta (t : Tracer) (group : String) :
    (ensureGroup t group).numGroups = t.numGroups ∧
      (ensureGroup t group).numSpans = t.numSpans ∧
      (ensureGroup t group).numMessages = t.numMessages ∧
      (ensureGroup t group).enabled = t.enabled := by
  cases hg : mapGet t.logs group with
  | some v => simp [ensureGroup, hg]
  | none =>
    simp only [ensureGroup, hg]
    split
    · split <;> simp
    · simp

theorem ensureSpan_frame (t : Tracer) (group span g' : String)
    (gm' : List (String × List LogEntry))
    (h : mapGet (ensureSpan t group span).logs g' = some gm') :
    mapGet t.logs g' = some gm' ∨
      (g' = group ∧ ∀ s' l', mapGet gm' s' = some l' →
        mapGet ((mapGet t.logs group).getD []) s' = some l' ∨ (s' = span ∧ l' = [])) := by
  simp only [ensureSpan] at h
  cases hsp : mapGet ((mapGet t.logs group).getD []) span with
  | some v =>
    rw [hsp] at h
    exact Or.inl h
  | none =>
    rw [hsp] at h
    by_cases he : g' = group
    · refine Or.inr ⟨he, ?_⟩
      rw [he] at h
      rw [mapGet_mapSet_self] at h
      intro s' l' hl
      rw [← Option.some.inj h] at hl
      by_cases hs : s' = span
      · subst hs
        rw [mapGet_mapSet_self] at hl
        exact Or.inr ⟨rfl, (Option.some.inj hl).symm⟩
      · rw [mapGet_mapSet_ne _ _ _ _ hs] at hl
        split at hl
        · split at hl
          · simp only [mapGet_mapSet_self, Option.getD_some] at hl
            by_cases ho : s' = findOldest ((mapGet t.spanTS group).getD [])
            · rw [ho, mapGet_mapDel_self] at hl
              cases hl
            · rw [mapGet_mapDel_ne _ _ _ ho] at hl
              exact Or.inl hl
          · exact Or.inl hl
        · exact Or.inl hl
    · rw [mapGet_mapSet_ne _ _ _ _ he] at h
      split at h
      · split at h
        · simp only at h
          rw [mapGet_mapSet_ne _ _ _ _ he] at h
          exact Or.inl h
        · exact Or.inl h
      · exact Or.inl h

theorem ensureSpan_target (t : Tracer) (group span : String) :
    ∃ gm l, mapGet (ensureSpan t group span).logs group = some gm ∧
      mapGet gm span = some l ∧
      (mapGet ((mapGet t.logs group).getD []) span = some l ∨ l = []) := by
  cases hsp : mapGet ((mapGet t.logs group).getD []) span with
  | some v =>
    have hE : ensureSpan t group span = t := by
      simp only [ensureSpan, hsp]
    cases hg : mapGet t.logs group with
    | some gm0 =>
      refine ⟨gm0, v, ?_, ?_, Or.inl rfl⟩
      · rw [hE]
        exact hg
      · have h2 := hsp
        rw [hg] at h2
        simpa using h2
    | none =>
      rw [hg] at hsp
      simp [mapGet] at hsp
  | none =>
    have h1 : ∃ gm, mapGet (ensureSpan t group span).logs group = some gm ∧
        mapGet gm span = some [] := by
      simp only [ensureSpan, hsp]
      exact ⟨_, mapGet_mapSet_self _ _ _, mapGet_mapSet_self _ _ _⟩
    obtain ⟨gm, hgm, hsp2⟩ := h1
    exact ⟨gm, [], hgm, hsp2, Or.inr rfl⟩

theorem ensureSpan_meta (t : Tracer) (group span : String) :
    (ensureSpan t group span).numGroups = t.numGroups ∧
      (ensureSpan t group span).numSpans = t.numSpans ∧
      (ensureSpan t group span).numMessages = t.numMessages ∧
      (ensureSpan t group span).enabled = t.enabled ∧
      (ensureSpan t group span).groupTS = t.groupTS := by
  cases hsp : mapGet ((mapGet t.logs group).getD []) span with
  | some v => simp [ensureSpan, hsp]
  | none =>
    simp only [ensureSpan, hsp]
    split
    · split <;> simp
    · simp

theorem ensureGroup_eq_of_mem (t : Tracer) (group : String)
    (v : List (String × List LogEntry)) (h : mapGet t.logs group = some v) :
    ensureGroup t group = t := by
  simp only [ensureGroup, h]

theorem logBookkeep_frame (t : Tracer) (g s : String) (now : Nat)
    (g' : String) (gm' : List (String × List LogEntry)) (s' : String) (l' : List LogEntry)
    (h : mapGet (logBookkeep t g s now).logs g' = some gm')
    (hl : mapGet gm' s' = some l') :
    (∃ gm0, mapGet t.logs g' = some gm0 ∧ mapGet gm0 s' = some l') ∨
      (g' = g ∧ s' = s ∧ l' = []) := by
  have h2 : mapGet (ensureSpan
      { ensureGroup t g with groupTS := mapSet (ensureGroup t g).groupTS g now }
      g s).logs g' = some gm' := h
  rcases ensureSpan_frame _ g s g' gm' h2 with h3 | ⟨rfl, h3⟩
  · rcases ensureGroup_frame t g g' gm' h3 with h4 | ⟨rfl, rfl⟩
    · exact Or.inl ⟨gm', h4, hl⟩
    · simp [mapGet] at hl
  · rcases h3 s' l' hl with h4 | ⟨rfl, rfl⟩
    · cases hg0 : mapGet t.logs g' with
      | some gm0 =>
        rw [show ({ ensureGroup t g' with
            groupTS := mapSet (ensureGroup t g').groupTS g' now } : Tracer).logs
              = (ensureGroup t g').logs from rfl,
          ensureGroup_eq_of_mem t g' gm0 hg0, hg0] at h4
        exact Or.inl ⟨gm0, rfl, by simpa using h4⟩
      | none =>
        obtain ⟨gm1, hgm1, hor⟩ := ensureGroup_target t g'
        rw [show ({ ensureGroup t g' with
            groupTS := mapSet (ensureGroup t g').groupTS g' now } : Tracer).logs
              = (ensureGroup t g').logs from rfl, hgm1] at h4
        rcases hor with h5 | rfl
        · rw [hg0] at h5
          cases h5
        · simp [mapGet] at h4
    · exact Or.inr ⟨rfl, rfl, rfl⟩

/-- C8: a write whose formatted message is empty creates or modifies no
entry — the store after the write is exactly the bookkeeping state of steps
3–6 — yet the earlier side effects stand: the group's and the span's "last
written" timestamps are refreshed to the write time, the (possibly new) group
and span buckets exist (the span keeps its previous entry list, or is the
fresh empty list), and every span list stored anywhere afterwards is either a
span list already stored before the write or the freshly created empty one. -/
theorem C8_empty_message_touch (t : Tracer) (lvl g s : String) (now : Nat)
    (ht : t.enabled = true) :
    log t lvl g s "" now = logBookkeep t g s now ∧
      mapGet (log t lvl g s "" now).groupTS g = some now ∧
      mapGet ((mapGet (log t lvl g s "" now).spanTS g).getD []) s = some now ∧
      (∃ gm l, mapGet (log t lvl g s "" now).logs g = some gm ∧
        mapGet gm s = some l ∧
        (mapGet ((mapGet t.logs g).getD []) s = some l ∨ l = [])) ∧
      (∀ g' gm' s' l', mapGet (log t lvl g s "" now).logs g' = some gm' →
        mapGet gm' s' = some l' →
        (∃ gm0, mapGet t.logs g' = some gm0 ∧ mapGet gm0 s' = some l') ∨
          (g' = g ∧ s' = s ∧ l' = [])) := by
  have hlog : log t lvl g s "" now = logBookkeep t g s now := by
    have h0 : ("" : String).utf8ByteSize = 0 := rfl
    simp [log, logEntryStep, ht, h0]
  refine ⟨hlog, ?_, ?_, ?_, ?_⟩
  · rw [hlog]
    have h1 : (logBookkeep t g s now).groupTS =
        (ensureSpan { ensureGroup t g with
          groupTS := mapSet (ensureGroup t g).groupTS g now } g s).groupTS := rfl
    rw [h1, (ensureSpan_meta _ g s).2.2.2.2]
    exact mapGet_mapSet_self _ _ _
  · rw [hlog]
    have h1 : (logBookkeep t g s now).spanTS =
        mapSet (ensureSpan { ensureGroup t g with
            groupTS := mapSet (ensureGroup t g).groupTS g now } g s).spanTS g
          (mapSet ((mapGet (ensureSpan { ensureGroup t g with
            groupTS := mapSet (ensureGroup t g).groupTS g now } g s).spanTS g).getD [])
            s now) := rfl
    rw [h1, mapGet_mapSet_self]
    exact mapGet_mapSet_self _ _ _
  · rw [hlog]
    have h1 : (logBookkeep t g s now).logs =
        (ensureSpan { ensureGroup t g with
          groupTS := mapSet (ensureGroup t g).groupTS g now } g s).logs := rfl
    rw [h1]
    obtain ⟨gm, l, hgm, hsl, hor⟩ := ensureSpan_target
      { ensureGroup t g with groupTS := mapSet (ensureGroup t g).groupTS g now } g s
    refine ⟨gm, l, hgm, hsl, ?_⟩
    rcases hor with h2 | rfl
    · cases hg0 : mapGet t.logs g with
      | some gm0 =>
        rw [show ({ ensureGroup t g with
            groupTS := mapSet (ensureGroup t g).groupTS g now } : Tracer).logs
              = (ensureGroup t g).logs from rfl,
          ensureGroup_eq_of_mem t g gm0 hg0, hg0] at h2
        exact Or.inl h2
      | none =>
        obtain ⟨gm1, hgm1, hor1⟩ := ensureGroup_target t g
        rw [show ({ ensureGroup t g with
            groupTS := mapSet (ensureGroup t g).groupTS g now } : Tracer).logs
              = (ensureGroup t g).logs from rfl, hgm1] at h2
        rcases hor1 with h5 | rfl
        · rw [hg0] at h5
          cases h5
        · simp [mapGet] at h2
    · exact Or.inr rfl
  · intro g' gm' s' l' h1 h2
    rw [hlog] at h1
    exact logBookkeep_frame t g s now g' gm' s' l' h1 h2

theorem C8_empty_message_touch_witness :
    exTracer.enabled = true ∧
      log exTracer "INFO" "g" "s1" "" 9 = logBookkeep exTracer "g" "s1" 9 :=
  ⟨by decide, (C8_empty_message_touch exTracer "INFO" "g" "s1" 9 (by decide)).1⟩

theorem mapSet_length_of_mem {α : Type} (m : List (String × α)) (k : String) (v w : α)
    (h : mapGet m k = some w) : (mapSet m k v).length = m.length := by
  induction m with
  | nil => simp [mapGet] at h
  | cons p rest ih =>
    obtain ⟨k', v'⟩ := p
    by_cases hk : k' = k
    · simp [mapSet, hk]
    · simp only [mapGet, if_neg hk] at h
      simp [mapSet, hk, ih h]

theorem logEntryStep_keys (t : Tracer) (lvl g s msg : String) (now : Nat)
    (gm : List (String × List LogEntry)) (hg : mapGet t.logs g = some gm) :
    (logEntryStep t lvl g s msg now).logs.map Prod.fst = t.logs.map Prod.fst := by
  simp only [logEntryStep, setEntries]
  split
  · rfl
  · split
    · exact mapSet_keys_of_mem _ _ _ _ hg
    · exact mapSet_keys_of_mem _ _ _ _ hg

theorem logEntryStep_target (t : Tracer) (lvl g s msg : String) (now : Nat)
    (gmt : List (String × List LogEntry)) (w : List LogEntry)
    (hg : mapGet t.logs g = some gmt) (hs : mapGet gmt s = some w) :
    ∃ gm', mapGet (logEntryStep t lvl g s msg now).logs g = some gm' ∧
      gm'.map Prod.fst = gmt.map Prod.fst ∧ gm'.length = gmt.length := by
  simp only [logEntryStep, setEntries]
  split
  · exact ⟨gmt, hg, rfl, rfl⟩
  · split
    · refine ⟨_, mapGet_mapSet_self _ _ _, ?_, ?_⟩
      · rw [hg]
        simp only [Option.getD_some]
        exact mapSet_keys_of_mem _ _ _ _ hs
      · rw [hg]
        simp only [Option.getD_some]
        exact mapSet_length_of_mem _ _ _ _ hs
    · refine ⟨_, mapGet_mapSet_self _ _ _, ?_, ?_⟩
      · rw [hg]
        simp only [Option.getD_some]
        exact mapSet_keys_of_mem _ _ _ _ hs
      · rw [hg]
        simp only [Option.getD_some]
        exact mapSet_length_of_mem _ _ _ _ hs

theorem ensureGroup_skip_logs (t : Tracer) (g : String) (hg : mapGet t.logs g = none)
    (hold : findOldest t.groupTS = "") :
    (ensureGroup t g).logs = t.logs ++ [(g, [])] := by
  simp only [ensureGroup, hg, hold]
  simp only [ne_eq, not_true_eq_false, if_false, ite_self]
  rw [mapSet_of_not_mem _ _ _ hg]

theorem ensureGroup_skip_spanTS (t : Tracer) (g : String) (hg : mapGet t.logs g = none)
    (hold : findOldest t.groupTS = "") :
    (ensureGroup t g).spanTS = mapSet t.spanTS g [] := by
  simp only [ensureGroup, hg, hold]
  simp only [ne_eq, not_true_eq_false, if_false, ite_self]

theorem ensureSpan_fresh_logs (t2 : Tracer) (g s : String)
    (hGet2 : mapGet t2.logs g = some []) (hspanTS2 : mapGet t2.spanTS g = some []) :
    (ensureSpan t2 g s).logs = mapSet t2.logs g (mapSet [] s []) := by
  have hc : ¬(t2.numSpans ≤ ((([] : List (String × Nat)).length : Nat) : Int) ∧
      0 < t2.numSpans) := by
    simp only [List.length_nil, Nat.cast_zero]
    omega
  simp only [ensureSpan, hGet2, hspanTS2, Option.getD_some, mapGet, if_neg hc]

theorem ensureSpan_skip_logs (t2 : Tracer) (g s : String)
    (gm : List (String × List LogEntry))
    (hGet2 : mapGet t2.logs g = some gm) (hs : mapGet gm s = none)
    (hcap : t2.numSpans ≤ ((((mapGet t2.spanTS g).getD []).length : Nat) : Int))
    (hpos : 0 < t2.numSpans)
    (hold : findOldest ((mapGet t2.spanTS g).getD []) = "") :
    (ensureSpan t2 g s).logs = mapSet t2.logs g (mapSet gm s []) := by
  simp only [ensureSpan, hGet2, Option.getD_some, hs, hold,
    if_pos (And.intro hcap hpos), ne_eq, not_true_eq_false, if_false]

/-- C4: the `oldestGroup != ""` / `oldestSpan != ""` guards of `log` exempt
the empty-named group and span from eviction.  When a write introduces a new
group while the group map is at capacity and the scan selects the group whose
name is `""` (it holds the oldest "last written" timestamp), the removal is
skipped while the new group is still created: afterwards the key list is the
old one with the new group appended, the empty-named group is still present,
and the group count exceeds `maxGroups`.  The same holds one level down for
an empty-named span within a group. -/
theorem C4_empty_name_skips_eviction :
    (∀ (t : Tracer) (lvl g s msg : String) (now : Nat),
      t.enabled = true →
      mapGet t.logs g = none →
      t.numGroups ≤ (t.groupTS.length : Int) →
      0 < t.numGroups →
      findOldest t.groupTS = "" →
      t.logs.length = t.groupTS.length →
      "" ∈ t.logs.map Prod.fst →
      ListGroups (log t lvl g s msg now) = ListGroups t ++ [g] ∧
        "" ∈ ListGroups (log t lvl g s msg now) ∧
        t.numGroups < ((log t lvl g s msg now).logs.length : Int)) ∧
    (∀ (t : Tracer) (lvl g s msg : String) (now : Nat)
        (gm : List (String × List LogEntry)),
      t.enabled = true →
      mapGet t.logs g = some gm →
      mapGet gm s = none →
      t.numSpans ≤ ((((mapGet t.spanTS g).getD []).length : Nat) : Int) →
      0 < t.numSpans →
      findOldest ((mapGet t.spanTS g).getD []) = "" →
      gm.length = ((mapGet t.spanTS g).getD []).length →
      "" ∈ gm.map Prod.fst →
      ∃ gm', mapGet (log t lvl g s msg now).logs g = some gm' ∧
        gm'.map Prod.fst = gm.map Prod.fst ++ [s] ∧
        t.numSpans < (gm'.length : Int) ∧
        "" ∈ gm'.map Prod.fst) := by
  constructor
  · intro t lvl g s msg now ht hg hcap hpos hold hsync hmem
    have hEGl := ensureGroup_skip_logs t g hg hold
    have hEGs := ensureGroup_skip_spanTS t g hg hold
    have hlog : log t lvl g s msg now =
        logEntryStep (logBookkeep t g s now) lvl g s msg now := by
      simp [log, ht]
    have h1 : mapGet ({ ensureGroup t g with
        groupTS := mapSet (ensureGroup t g).groupTS g now } : Tracer).logs g =
          some [] := by
      show mapGet (ensureGroup t g).logs g = some []
      rw [hEGl, ← mapSet_of_not_mem _ _ ([] : List (String × List LogEntry)) hg]
      exact mapGet_mapSet_self _ _ _
    have h2 : mapGet ({ ensureGroup t g with
        groupTS := mapSet (ensureGroup t g).groupTS g now } : Tracer).spanTS g =
          some [] := by
      show mapGet (ensureGroup t g).spanTS g = some []
      rw [hEGs]
      exact mapGet_mapSet_self _ _ _
    have hES := ensureSpan_fresh_logs
      { ensureGroup t g with groupTS := mapSet (ensureGroup t g).groupTS g now }
      g s h1 h2
    have hkeysbk : (logBookkeep t g s now).logs.map Prod.fst =
        t.logs.map Prod.fst ++ [g] := by
      show (ensureSpan { ensureGroup t g with
        groupTS := mapSet (ensureGroup t g).groupTS g now } g s).logs.map Prod.fst = _
      rw [hES, mapSet_keys_of_mem _ _ _ _ h1]
      show (ensureGroup t g).logs.map Prod.fst = _
      rw [hEGl]
      simp
    have hbkg : mapGet (logBookkeep t g s now).logs g = some (mapSet [] s []) := by
      show mapGet (ensureSpan { ensureGroup t g with
        groupTS := mapSet (ensureGroup t g).groupTS g now } g s).logs g = _
      rw [hES]
      exact mapGet_mapSet_self _ _ _
    have hkeys : (log t lvl g s msg now).logs.map Prod.fst =
        t.logs.map Prod.fst ++ [g] := by
      rw [hlog, logEntryStep_keys _ lvl g s msg now _ hbkg, hkeysbk]
    have hlen : (log t lvl g s msg now).logs.length = t.logs.length + 1 := by
      have h3 := congrArg List.length hkeys
      simpa using h3
    refine ⟨hkeys, ?_, ?_⟩
    · show "" ∈ (log t lvl g s msg now).logs.map Prod.fst
      rw [hkeys]
      exact List.mem_append.mpr (Or.inl hmem)
    · rw [hlen]
      push_cast
      omega
  · intro t lvl g s msg now gm ht hgm hs hcap hpos hold hsync hmem
    have hEGt : ensureGroup t g = t := ensureGroup_eq_of_mem t g gm hgm
    have hT2 : ({ ensureGroup t g with
        groupTS := mapSet (ensureGroup t g).groupTS g now } : Tracer) =
          { t with groupTS := mapSet t.groupTS g now } := by
      rw [hEGt]
    have hES := ensureSpan_skip_logs { t with groupTS := mapSet t.groupTS g now }
      g s gm hgm hs hcap hpos hold
    have happ : mapSet gm s [] = gm ++ [(s, [])] := mapSet_of_not_mem gm s [] hs
    have hbkg : mapGet (logBookkeep t g s now).logs g = some (mapSet gm s []) := by
      show mapGet (ensureSpan { ensureGroup t g with
        groupTS := mapSet (ensureGroup t g).groupTS g now } g s).logs g = _
      rw [hT2, hES]
      exact mapGet_mapSet_self _ _ _
    have hskey : mapGet (mapSet gm s []) s = some [] := mapGet_mapSet_self _ _ _
    have hlog : log t lvl g s msg now =
        logEntryStep (logBookkeep t g s now) lvl g s msg now := by
      simp [log, ht]
    obtain ⟨gm', hgm', hkeys', hlen'⟩ := logEntryStep_target (logBookkeep t g s now)
      lvl g s msg now (mapSet gm s []) [] hbkg hskey
    refine ⟨gm', by rw [hlog]; exact hgm', ?_, ?_, ?_⟩
    · rw [hkeys', happ]
      simp
    · have h4 : gm'.length = gm.length + 1 := by
        rw [hlen', happ]
        simp
      rw [h4]
      push_cast
      omega
    · rw [hkeys', happ]
      simp only [List.map_append, List.map_cons, List.map_nil]
      exact List.mem_append.mpr (Or.inl hmem)

theorem C4_empty_name_skips_eviction_witness :
    (ListGroups (log exEmptyGroupTracer "INFO" "g" "s" "m" 1) =
        ListGroups exEmptyGroupTracer ++ ["g"] ∧
      "" ∈ ListGroups (log exEmptyGroupTracer "INFO" "g" "s" "m" 1) ∧
      exEmptyGroupTracer.numGroups <
        ((log exEmptyGroupTracer "INFO" "g" "s" "m" 1).logs.length : Int)) ∧
    (∃ gm', mapGet (log exEmptySpanTracer "INFO" "g" "s2" "m" 1).logs "g" = some gm' ∧
      gm'.map Prod.fst = exEmptySpanBucket.map Prod.fst ++ ["s2"] ∧
      exEmptySpanTracer.numSpans < (gm'.length : Int) ∧
      "" ∈ gm'.map Prod.fst) :=
  ⟨C4_empty_name_skips_eviction.1 exEmptyGroupTracer "INFO" "g" "s" "m" 1
      (by decide) (by decide) (by decide) (by decide) (by decide) (by decide) (by decide),
    C4_empty_name_skips_eviction.2 exEmptySpanTracer "INFO" "g" "s2" "m" 1
      exEmptySpanBucket
      (by decide) (by decide) (by decide) (by decide) (by decide) (by decide)
      (by decide) (by decide)⟩

theorem ensureSpan_eq_of_mem (t : Tracer) (group span : String) (v : List LogEntry)
    (h : mapGet ((mapGet t.logs group).getD []) span = some v) :
    ensureSpan t group span = t := by
  simp only [ensureSpan, h]

theorem setEntries_cases (t : Tracer) (g s : String) (L : List LogEntry)
    (g' : String) (gm' : List (String × List LogEntry)) (s' : String) (l' : List LogEntry)
    (h : mapGet (setEntries t g s L).logs g' = some gm')
    (hl : mapGet gm' s' = some l') :
    (∃ gm0, mapGet t.logs g' = some gm0 ∧ mapGet gm0 s' = some l') ∨
      (g' = g ∧ s' = s ∧ l' = L) := by
  simp only [setEntries] at h
  by_cases hg : g' = g
  · subst hg
    rw [mapGet_mapSet_self] at h
    rw [← Option.some.inj h] at hl
    by_cases hs : s' = s
    · subst hs
      rw [mapGet_mapSet_self] at hl
      exact Or.inr ⟨rfl, rfl, (Option.some.inj hl).symm⟩
    · rw [mapGet_mapSet_ne _ _ _ _ hs] at hl
      cases hg0 : mapGet t.logs g' with
      | some gm0 =>
        rw [hg0, Option.getD_some] at hl
        exact Or.inl ⟨gm0, rfl, hl⟩
      | none =>
        rw [hg0] at hl
        simp [mapGet] at hl
  · rw [mapGet_mapSet_ne _ _ _ _ hg] at h
    exact Or.inl ⟨gm', h, hl⟩

theorem logBookkeep_target (t : Tracer) (g s : String) (now : Nat) :
    ∃ gm l, mapGet (logBookkeep t g s now).logs g = some gm ∧
      mapGet gm s = some l ∧
      ((∃ gm0, mapGet t.logs g = some gm0 ∧ mapGet gm0 s = some l) ∨ l = []) := by
  have h1 : (logBookkeep t g s now).logs =
      (ensureSpan { ensureGroup t g with
        groupTS := mapSet (ensureGroup t g).groupTS g now } g s).logs := rfl
  rw [h1]
  obtain ⟨gm, l, hgm, hsl, hor⟩ := ensureSpan_target
    { ensureGroup t g with groupTS := mapSet (ensureGroup t g).groupTS g now } g s
  refine ⟨gm, l, hgm, hsl, ?_⟩
  rcases hor with h2 | rfl
  · cases hg0 : mapGet t.logs g with
    | some gm0 =>
      rw [show ({ ensureGroup t g with
          groupTS := mapSet (ensureGroup t g).groupTS g now } : Tracer).logs
            = (ensureGroup t g).logs from rfl,
        ensureGroup_eq_of_mem t g gm0 hg0, hg0] at h2
      exact Or.inl ⟨gm0, rfl, by simpa using h2⟩
    | none =>
      obtain ⟨gm1, hgm1, hor1⟩ := ensureGroup_target t g
      rw [show ({ ensureGroup t g with
          groupTS := mapSet (ensureGroup t g).groupTS g now } : Tracer).logs
            = (ensureGroup t g).logs from rfl, hgm1] at h2
      rcases hor1 with h5 | rfl
      · rw [hg0] at h5
        cases h5
      · simp [mapGet] at h2
  · exact Or.inr rfl

theorem logBookkeep_meta (t : Tracer) (g s : String) (now : Nat) :
    (logBookkeep t g s now).numGroups = t.numGroups ∧
      (logBookkeep t g s now).numSpans = t.numSpans ∧
      (logBookkeep t g s now).numMessages = t.numMessages ∧
      (logBookkeep t g s now).enabled = t.enabled := by
  have h1 := ensureSpan_meta
    { ensureGroup t g with groupTS := mapSet (ensureGroup t g).groupTS g now } g s
  have h2 := ensureGroup_meta t g
  exact ⟨h1.1.trans h2.1, h1.2.1.trans h2.2.1, h1.2.2.1.trans h2.2.2.1,
    h1.2.2.2.1.trans h2.2.2.2⟩

theorem logEntryStep_meta (t : Tracer) (lvl g s msg : String) (now : Nat) :
    (logEntryStep t lvl g s msg now).numGroups = t.numGroups ∧
      (logEntryStep t lvl g s msg now).numSpans = t.numSpans ∧
      (logEntryStep t lvl g s msg now).numMessages = t.numMessages ∧
      (logEntryStep t lvl g s msg now).enabled = t.enabled ∧
      (logEntryStep t lvl g s msg now).groupTS = t.groupTS ∧
      (logEntryStep t lvl g s msg now).spanTS = t.spanTS := by
  simp only [logEntryStep, setEntries]
  split
  · simp
  · split <;> simp

theorem log_meta (t : Tracer) (lvl g s msg : String) (now : Nat) :
    (log t lvl g s msg now).numGroups = t.numGroups ∧
      (log t lvl g s msg now).numSpans = t.numSpans ∧
      (log t lvl g s msg now).numMessages = t.numMessages ∧
      (log t lvl g s msg now).enabled = t.enabled := by
  by_cases ht : t.enabled
  · rw [show log t lvl g s msg now =
      logEntryStep (logBookkeep t g s now) lvl g s msg now by simp [log, ht]]
    have h1 := logEntryStep_meta (logBookkeep t g s now) lvl g s msg now
    have h2 := logBookkeep_meta t g s now
    exact ⟨h1.1.trans h2.1, h1.2.1.trans h2.2.1, h1.2.2.1.trans h2.2.2.1,
      h1.2.2.2.1.trans h2.2.2.2⟩
  · simp [log, ht]

theorem log_span_lists (t : Tracer) (lvl g s msg : String) (now : Nat)
    (g' : String) (gm' : List (String × List LogEntry)) (s' : String) (l' : List LogEntry)
    (h : mapGet (log t lvl g s msg now).logs g' = some gm')
    (hl : mapGet gm' s' = some l') :
    (∃ g0 gm0 s0, mapGet t.logs g0 = some gm0 ∧ mapGet gm0 s0 = some l') ∨
      (∃ l0 : List LogEntry,
        ((∃ g0 gm0 s0, mapGet t.logs g0 = some gm0 ∧ mapGet gm0 s0 = some l0) ∨ l0 = []) ∧
        (l0.any (isDup (goTruncate msg) lvl) = true ∧
            l' = bumpDup (goTruncate msg) lvl now l0 ∨
          l0.any (isDup (goTruncate msg) lvl) = false ∧
            ((l0.length : Int) < t.numMessages ∧
                l' = l0 ++ [⟨g, s, goTruncate msg, lvl, now, 1⟩] ∨
              ¬(l0.length : Int) < t.numMessages ∧ 0 < t.numMessages ∧
                l' = l0.tail ++ [⟨g, s, goTruncate msg, lvl, now, 1⟩] ∨
              l' = []))) := by
  by_cases ht : t.enabled
  · rw [show log t lvl g s msg now =
      logEntryStep (logBookkeep t g s now) lvl g s msg now by simp [log, ht]] at h
    obtain ⟨gm3, l3, hgm3, hsl3, hor3⟩ := logBookkeep_target t g s now
    have hsE : spanEntries (logBookkeep t g s now) g s = l3 := by
      simp only [spanEntries, hgm3, Option.getD_some, hsl3]
    have hl3old : (∃ g0 gm0 s0, mapGet t.logs g0 = some gm0 ∧ mapGet gm0 s0 = some l3) ∨
        l3 = [] := by
      rcases hor3 with ⟨gm0, h1, h2⟩ | h1
      · exact Or.inl ⟨g, gm0, s, h1, h2⟩
      · exact Or.inr h1
    have hbkframe : ∀ gx gmx sx, mapGet (logBookkeep t g s now).logs gx = some gmx →
        mapGet gmx sx = some l' →
        (∃ g0 gm0 s0, mapGet t.logs g0 = some gm0 ∧ mapGet gm0 s0 = some l') ∨ l' = [] := by
      intro gx gmx sx hx hlx
      rcases logBookkeep_frame t g s now gx gmx sx l' hx hlx with ⟨gm0, h1, h2⟩ | ⟨_, _, h1⟩
      · exact Or.inl ⟨gx, gm0, sx, h1, h2⟩
      · exact Or.inr h1
    have hnm : (logBookkeep t g s now).numMessages = t.numMessages :=
      (logBookkeep_meta t g s now).2.2.1
    simp only [logEntryStep] at h
    split at h
    · rcases hbkframe g' gm' s' h hl with h1 | rfl
      · exact Or.inl h1
      · exact Or.inr ⟨[], Or.inr rfl, Or.inr ⟨rfl, Or.inr (Or.inr rfl)⟩⟩
    · rw [hsE] at h
      by_cases hany : l3.any (isDup (goTruncate msg) lvl) = true
      · rw [if_pos hany] at h
        rcases setEntries_cases _ g s _ g' gm' s' l' h hl with h1 | ⟨_, _, rfl⟩
        · obtain ⟨gm0, h2, h3⟩ := h1
          rcases hbkframe g' gm0 s' h2 h3 with h4 | rfl
          · exact Or.inl h4
          · exact Or.inr ⟨[], Or.inr rfl, Or.inr ⟨rfl, Or.inr (Or.inr rfl)⟩⟩
        · exact Or.inr ⟨l3, hl3old, Or.inl ⟨hany, rfl⟩⟩
      · rw [if_neg hany] at h
        rcases setEntries_cases _ g s _ g' gm' s' l' h hl with h1 | ⟨_, _, rfl⟩
        · obtain ⟨gm0, h2, h3⟩ := h1
          rcases hbkframe g' gm0 s' h2 h3 with h4 | rfl
          · exact Or.inl h4
          · exact Or.inr ⟨[], Or.inr rfl, Or.inr ⟨rfl, Or.inr (Or.inr rfl)⟩⟩
        · refine Or.inr ⟨l3, hl3old, Or.inr ⟨by simpa using hany, ?_⟩⟩
          by_cases hlt : ((l3.length : Int) < (logBookkeep t g s now).numMessages)
          · rw [if_pos hlt]
            rw [hnm] at hlt
            exact Or.inl ⟨hlt, rfl⟩
          · rw [if_neg hlt]
            by_cases hpos : ((0 : Int) < (logBookkeep t g s now).numMessages)
            · rw [if_pos hpos]
              rw [hnm] at hlt hpos
              exact Or.inr (Or.inl ⟨hlt, hpos, rfl⟩)
            · rw [if_neg hpos]
              exact Or.inr (Or.inr rfl)
  · rw [show log t lvl g s msg now = t by simp [log, ht]] at h
    exact Or.inl ⟨g', gm', s', h, hl⟩

theorem utf8ByteSize_ne_zero (s : String) (h : s ≠ "") : s.utf8ByteSize ≠ 0 := by
  cases s with
  | mk data =>
    cases data with
    | nil => exact absurd rfl h
    | cons c cs =>
      have h1 : 0 < c.utf8Size := Char.utf8Size_pos c
      simp only [String.utf8ByteSize, String.utf8ByteSize.go]
      omega

theorem goTruncate_eq_of_le (msg : String) (h : msg.utf8ByteSize ≤ 1000) :
    goTruncate msg = msg := by
  simp only [goTruncate, maxMsgLen]
  rw [if_neg (by omega)]

theorem bumpDup_length (msg lvl : String) (now : Nat) (l : List LogEntry) :
    (bumpDup msg lvl now l).length = l.length := by
  induction l with
  | nil => rfl
  | cons e rest ih =>
    by_cases hd : isDup msg lvl e = true
    · simp [bumpDup, hd]
    · simp [bumpDup, hd, ih]

theorem log_preserves_lens (t : Tracer) (lvl g s msg : String) (now : Nat)
    (hcap : 1 ≤ t.numMessages) (hI : spanLensOk t) :
    spanLensOk (log t lvl g s msg now) := by
  intro g' gm' s' l' h hl
  have hnm : (log t lvl g s msg now).numMessages = t.numMessages :=
    (log_meta t lvl g s msg now).2.2.1
  rw [hnm]
  rcases log_span_lists t lvl g s msg now g' gm' s' l' h hl with
    ⟨g0, gm0, s0, h1, h2⟩ | ⟨l0, horig, hshape⟩
  · exact hI g0 gm0 s0 l' h1 h2
  · have hl0 : (l0.length : Int) ≤ t.numMessages := by
      rcases horig with ⟨g0, gm0, s0, h1, h2⟩ | rfl
      · exact hI g0 gm0 s0 l0 h1 h2
      · simp only [List.length_nil, Nat.cast_zero]
        omega
    rcases hshape with ⟨_, rfl⟩ | ⟨_, hsub⟩
    · rw [bumpDup_length]
      exact hl0
    · rcases hsub with ⟨hlt, rfl⟩ | ⟨hge, hpos, rfl⟩ | rfl
      · simp only [List.length_append, List.length_cons, List.length_nil]
        push_cast
        omega
      · have htl : l0.tail.length = l0.length - 1 := List.length_tail l0
        have hne : 1 ≤ l0.length := by
          rcases Nat.eq_zero_or_pos l0.length with h0 | h0
          · exfalso
            rw [h0] at hge
            push_cast at hge
            omega
          · exact h0
        simp only [List.length_append, List.length_cons, List.length_nil, htl]
        push_cast at hl0 ⊢
        omega
      · simp only [List.length_nil, Nat.cast_zero]
        omega

theorem applyWrites_cons (t : Tracer) (o : WriteOp) (ops : List WriteOp) :
    applyWrites t (o :: ops) =
      applyWrites (log t o.level o.group o.span o.message o.now) ops := rfl

theorem applyWrites_meta (ops : List WriteOp) :
    ∀ t : Tracer, (applyWrites t ops).numMessages = t.numMessages := by
  induction ops with
  | nil => intro t; rfl
  | cons o ops ih =>
    intro t
    rw [applyWrites_cons, ih]
    exact (log_meta t o.level o.group o.span o.message o.now).2.2.1

theorem applyWrites_lens (ops : List WriteOp) :
    ∀ t : Tracer, 1 ≤ t.numMessages → spanLensOk t → spanLensOk (applyWrites t ops) := by
  induction ops with
  | nil => intro t _ hI; exact hI
  | cons o ops ih =>
    intro t hcap hI
    rw [applyWrites_cons]
    refine ih _ ?_ (log_preserves_lens t o.level o.group o.span o.message o.now hcap hI)
    rw [(log_meta t o.level o.group o.span o.message o.now).2.2.1]
    exact hcap

/-- C2: (bound) starting from any freshly constructed store, after any
sequence of writes every span's entry list has at most `maxMessagesPerSpan`
entries; (FIFO overflow) a write of a fresh (message, level) pair into a
full span evicts exactly the oldest-inserted entry — index 0 of the list —
and appends the new entry at the end, so the retained entries are the
most-recently-inserted distinct ones. -/
theorem C2_span_capacity_and_fifo :
    (∀ (a b c : Int) (ops : List WriteOp) (g s : String)
        (gm : List (String × List LogEntry)) (l : List LogEntry),
      mapGet (applyWrites (NewTracerWithSizes a b c) ops).logs g = some gm →
      mapGet gm s = some l →
      (l.length : Int) ≤ (NewTracerWithSizes a b c).numMessages) ∧
    (∀ (t : Tracer) (lvl g s msg : String) (now : Nat)
        (gm : List (String × List LogEntry)) (l : List LogEntry),
      t.enabled = true →
      mapGet t.logs g = some gm →
      mapGet gm s = some l →
      msg ≠ "" →
      msg.utf8ByteSize ≤ 1000 →
      l.any (isDup msg lvl) = false →
      t.numMessages ≤ (l.length : Int) →
      0 < t.numMessages →
      ∃ gm', mapGet (log t lvl g s msg now).logs g = some gm' ∧
        mapGet gm' s = some (l.tail ++ [⟨g, s, msg, lvl, now, 1⟩])) := by
  constructor
  · intro a b c ops g s gm l h hl
    have hinit : spanLensOk (NewTracerWithSizes a b c) := by
      intro g0 gm0 s0 l0 h0 _
      simp [NewTracerWithSizes, mapGet] at h0
    have hb := (applyWrites_lens ops (NewTracerWithSizes a b c)
      (newTracer_sizes_pos a b c).2.2 hinit) g gm s l h hl
    rwa [applyWrites_meta ops (NewTracerWithSizes a b c)] at hb
  · intro t lvl g s msg now gm l ht hgm hsl hne hle hany hfull hpos
    have hbyte : msg.utf8ByteSize ≠ 0 := utf8ByteSize_ne_zero msg hne
    have htr : goTruncate msg = msg := goTruncate_eq_of_le msg hle
    have hEG : ensureGroup t g = t := ensureGroup_eq_of_mem t g gm hgm
    have hT2 : ({ ensureGroup t g with
        groupTS := mapSet (ensureGroup t g).groupTS g now } : Tracer) =
          { t with groupTS := mapSet t.groupTS g now } := by
      rw [hEG]
    have hchain : mapGet ((mapGet ({ t with
        groupTS := mapSet t.groupTS g now } : Tracer).logs g).getD []) s = some l := by
      show mapGet ((mapGet t.logs g).getD []) s = some l
      rw [hgm]
      simpa using hsl
    have hES := ensureSpan_eq_of_mem { t with groupTS := mapSet t.groupTS g now }
      g s l hchain
    have hbklogs : (logBookkeep t g s now).logs = t.logs := by
      show (ensureSpan { ensureGroup t g with
        groupTS := mapSet (ensureGroup t g).groupTS g now } g s).logs = t.logs
      rw [hT2, hES]
    have hbknm : (logBookkeep t g s now).numMessages = t.numMessages :=
      (logBookkeep_meta t g s now).2.2.1
    have hsE : spanEntries (logBookkeep t g s now) g s = l := by
      simp only [spanEntries, hbklogs, hgm, Option.getD_some, hsl]
    rw [show log t lvl g s msg now =
      logEntryStep (logBookkeep t g s now) lvl g s msg now by simp [log, ht]]
    simp only [logEntryStep, hsE, htr]
    rw [if_neg hbyte, if_neg (by simp [hany]), hbknm,
      if_neg (by omega), if_pos hpos]
    simp only [setEntries, hbklogs, hgm, Option.getD_some]
    exact ⟨_, mapGet_mapSet_self _ _ _, mapGet_mapSet_self _ _ _⟩

theorem C2_span_capacity_and_fifo_witness :
    ((([⟨"g", "s", "b", "INFO", 2, 1⟩, ⟨"g", "s", "c", "INFO", 3, 1⟩] :
        List LogEntry).length : Int) ≤ (NewTracerWithSizes 2 2 2).numMessages) ∧
      (∃ gm', mapGet (log (Info (Info (NewTracerWithSizes 2 2 2) "g" "s" "a" 1)
          "g" "s" "b" 2) "INFO" "g" "s" "c" 3).logs "g" = some gm' ∧
        mapGet gm' "s" = some (([⟨"g", "s", "a", "INFO", 1, 1⟩,
            ⟨"g", "s", "b", "INFO", 2, 1⟩] : List LogEntry).tail ++
          [⟨"g", "s", "c", "INFO", 3, 1⟩])) :=
  ⟨C2_span_capacity_and_fifo.1 2 2 2
      [⟨"INFO", "g", "s", "a", 1⟩, ⟨"INFO", "g", "s", "b", 2⟩, ⟨"INFO", "g", "s", "c", 3⟩]
      "g" "s" [("s", [⟨"g", "s", "b", "INFO", 2, 1⟩, ⟨"g", "s", "c", "INFO", 3, 1⟩])]
      [⟨"g", "s", "b", "INFO", 2, 1⟩, ⟨"g", "s", "c", "INFO", 3, 1⟩]
      (by decide) (by decide),
    C2_span_capacity_and_fifo.2 (Info (Info (NewTracerWithSizes 2 2 2) "g" "s" "a" 1)
        "g" "s" "b" 2) "INFO" "g" "s" "c" 3
      [("s", [⟨"g", "s", "a", "INFO", 1, 1⟩, ⟨"g", "s", "b", "INFO", 2, 1⟩])]
      [⟨"g", "s", "a", "INFO", 1, 1⟩, ⟨"g", "s", "b", "INFO", 2, 1⟩]
      (by decide) (by decide) (by decide) (by decide) (by decide) (by decide)
      (by decide) (by decide)⟩

/-! Dedup lemmas for C3. -/

theorem pairEntries_any (l : List LogEntry) (msg lvl : String) (e : LogEntry)
    (h : pairEntries l msg lvl = [e]) : l.any (isDup msg lvl) = true := by
  have he : e ∈ pairEntries l msg lvl := by
    rw [h]
    exact List.mem_singleton.mpr rfl
  simp only [pairEntries, List.mem_filter] at he
  exact List.any_eq_true.mpr ⟨e, he.1, he.2⟩

theorem pairEntries_nil_any (l : List LogEntry) (msg lvl : String)
    (h : pairEntries l msg lvl = []) : l.any (isDup msg lvl) = false := by
  rw [List.any_eq_false]
  intro e he
  intro hd
  have : e ∈ pairEntries l msg lvl := by
    simp only [pairEntries, List.mem_filter]
    exact ⟨he, hd⟩
  rw [h] at this
  cases this

theorem pairEntries_tail_nil (l : List LogEntry) (msg lvl : String)
    (h : pairEntries l msg lvl = []) : pairEntries l.tail msg lvl = [] := by
  cases l with
  | nil => rfl
  | cons a rest =>
    simp only [pairEntries, List.filter_cons] at h ⊢
    split at h
    · cases h
    · exact h

theorem pairEntries_append_new (l : List LogEntry) (g s msg lvl : String) (now : Nat)
    (h : pairEntries l msg lvl = []) :
    pairEntries (l ++ [⟨g, s, msg, lvl, now, 1⟩]) msg lvl =
      [⟨g, s, msg, lvl, now, 1⟩] := by
  simp only [pairEntries, List.filter_append] at h ⊢
  rw [h]
  simp [isDup]

theorem pairEntries_bumpDup (l : List LogEntry) (msg lvl : String) (now : Nat)
    (e : LogEntry) (h : pairEntries l msg lvl = [e]) :
    pairEntries (bumpDup msg lvl now l) msg lvl =
      [{ e with count := (e.count + 1) % 4294967296, time := now }] := by
  induction l with
  | nil => simp [pairEntries] at h
  | cons a rest ih =>
    by_cases hd : isDup msg lvl a = true
    · have h2 : a = e ∧ pairEntries rest msg lvl = [] := by
        have := h
        simp only [pairEntries, List.filter_cons, if_pos hd] at this
        exact ⟨(List.cons.inj this).1, by
          simpa [pairEntries] using (List.cons.inj this).2⟩
      obtain ⟨rfl, hrest⟩ := h2
      have hd2 : isDup msg lvl
          ({ a with count := (a.count + 1) % 4294967296, time := now }) = true := by
        simpa [isDup] using hd
      simp only [bumpDup, if_pos hd, pairEntries, List.filter_cons, if_pos hd2]
      have hrest2 : rest.filter (fun x => isDup msg lvl x) = [] := by
        simpa [pairEntries] using hrest
      rw [hrest2]
    · have h2 : pairEntries rest msg lvl = [e] := by
        have := h
        simp only [pairEntries, List.filter_cons, if_neg hd] at this
        simpa [pairEntries] using this
      simp only [bumpDup, if_neg hd, pairEntries, List.filter_cons, if_neg hd]
      simpa [pairEntries] using ih h2

theorem log_dedup_step (t : Tracer) (lvl g s msg : String) (now : Nat)
    (gm : List (String × List LogEntry)) (l : List LogEntry)
    (ht : t.enabled = true)
    (hgm : mapGet t.logs g = some gm) (hsl : mapGet gm s = some l)
    (hbyte : msg.utf8ByteSize ≠ 0) (htr : goTruncate msg = msg)
    (hany : l.any (isDup msg lvl) = true) :
    ∃ gm', mapGet (log t lvl g s msg now).logs g = some gm' ∧
      mapGet gm' s = some (bumpDup msg lvl now l) := by
  have hEG := ensureGroup_eq_of_mem t g gm hgm
  have hT2 : ({ ensureGroup t g with
      groupTS := mapSet (ensureGroup t g).groupTS g now } : Tracer) =
        { t with groupTS := mapSet t.groupTS g now } := by
    rw [hEG]
  have hchain : mapGet ((mapGet ({ t with
      groupTS := mapSet t.groupTS g now } : Tracer).logs g).getD []) s = some l := by
    show mapGet ((mapGet t.logs g).getD []) s = some l
    rw [hgm]
    simpa using hsl
  have hES := ensureSpan_eq_of_mem { t with groupTS := mapSet t.groupTS g now }
    g s l hchain
  have hbklogs : (logBookkeep t g s now).logs = t.logs := by
    show (ensureSpan { ensureGroup t g with
      groupTS := mapSet (ensureGroup t g).groupTS g now } g s).logs = t.logs
    rw [hT2, hES]
  have hsE : spanEntries (logBookkeep t g s now) g s = l := by
    simp only [spanEntries, hbklogs, hgm, Option.getD_some, hsl]
  rw [show log t lvl g s msg now =
    logEntryStep (logBookkeep t g s now) lvl g s msg now by simp [log, ht]]
  simp only [logEntryStep, hsE, htr]
  rw [if_neg hbyte, if_pos hany]
  simp only [setEntries, hbklogs, hgm, Option.getD_some]
  exact ⟨_, mapGet_mapSet_self _ _ _, mapGet_mapSet_self _ _ _⟩

theorem log_first_step (t : Tracer) (lvl g s msg : String) (now : Nat)
    (ht : t.enabled = true) (hbyte : msg.utf8ByteSize ≠ 0) (htr : goTruncate msg = msg)
    (hnm : 1 ≤ t.numMessages)
    (hfresh : pairEntries (spanEntries t g s) msg lvl = []) :
    ∃ gm' l', mapGet (log t lvl g s msg now).logs g = some gm' ∧
      mapGet gm' s = some l' ∧
      pairEntries l' msg lvl = [⟨g, s, msg, lvl, now, 1⟩] := by
  obtain ⟨gm3, l3, hgm3, hsl3, hor3⟩ := logBookkeep_target t g s now
  have hsE : spanEntries (logBookkeep t g s now) g s = l3 := by
    simp only [spanEntries, hgm3, Option.getD_some, hsl3]
  have hfresh3 : pairEntries l3 msg lvl = [] := by
    rcases hor3 with ⟨gm0, h1, h2⟩ | rfl
    · have h3 : spanEntries t g s = l3 := by
        simp only [spanEntries, h1, Option.getD_some, h2]
      rwa [h3] at hfresh
    · rfl
  have hany : l3.any (isDup msg lvl) = false := pairEntries_nil_any l3 msg lvl hfresh3
  have hbknm : (logBookkeep t g s now).numMessages = t.numMessages :=
    (logBookkeep_meta t g s now).2.2.1
  rw [show log t lvl g s msg now =
    logEntryStep (logBookkeep t g s now) lvl g s msg now by simp [log, ht]]
  simp only [logEntryStep, hsE, htr]
  rw [if_neg hbyte, if_neg (by simp [hany]), hbknm]
  by_cases hlt : ((l3.length : Int) < t.numMessages)
  · rw [if_pos hlt]
    simp only [setEntries, hgm3, Option.getD_some]
    exact ⟨_, _, mapGet_mapSet_self _ _ _, mapGet_mapSet_self _ _ _,
      pairEntries_append_new l3 g s msg lvl now hfresh3⟩
  · rw [if_neg hlt, if_pos (by omega)]
    simp only [setEntries, hgm3, Option.getD_some]
    exact ⟨_, _, mapGet_mapSet_self _ _ _, mapGet_mapSet_self _ _ _,
      pairEntries_append_new l3.tail g s msg lvl now
        (pairEntries_tail_nil l3 msg lvl hfresh3)⟩

theorem logRepeat_cons (t : Tracer) (lvl g s msg : String) (now : Nat) (rest : List Nat) :
    logRepeat t lvl g s msg (now :: rest) =
      logRepeat (log t lvl g s msg now) lvl g s msg rest := rfl

theorem foldl_bump_mod (ts : List Nat) :
    ∀ c : Nat, c < 4294967296 →
      ts.foldl (fun c _ => (c + 1) % 4294967296) c = (c + ts.length) % 4294967296 := by
  induction ts with
  | nil =>
    intro c hc
    simp [Nat.mod_eq_of_lt hc]
  | cons x rest ih =>
    intro c hc
    rw [List.foldl_cons, ih ((c + 1) % 4294967296) (Nat.mod_lt _ (by norm_num)),
      Nat.mod_add_mod, List.length_cons]
    congr 1
    omega

theorem getLastq_getD_cons {α : Type} (a d : α) (l : List α) :
    ((a :: l).getLast?).getD d = (l.getLast?).getD a := by
  cases l with
  | nil => rfl
  | cons b bs =>
    rw [List.getLast?_cons_cons]
    cases h : (b :: bs).getLast? with
    | none => exact absurd h (by simp)
    | some x => rfl

theorem logRepeat_bump (ts : List Nat) :
    ∀ (t : Tracer) (lvl g s msg : String) (gm : List (String × List LogEntry))
      (l : List LogEntry) (e : LogEntry),
    t.enabled = true →
    mapGet t.logs g = some gm → mapGet gm s = some l →
    msg.utf8ByteSize ≠ 0 → goTruncate msg = msg →
    pairEntries l msg lvl = [e] →
    ∃ gm' l', mapGet (logRepeat t lvl g s msg ts).logs g = some gm' ∧
      mapGet gm' s = some l' ∧
      pairEntries l' msg lvl =
        [⟨e.group, e.span, e.message, e.level, ts.getLastD e.time,
          ts.foldl (fun c _ => (c + 1) % 4294967296) e.count⟩] := by
  induction ts with
  | nil =>
    intro t lvl g s msg gm l e ht hgm hsl hbyte htr hpair
    exact ⟨gm, l, hgm, hsl, by simpa using hpair⟩
  | cons now rest ih =>
    intro t lvl g s msg gm l e ht hgm hsl hbyte htr hpair
    have hany := pairEntries_any l msg lvl e hpair
    obtain ⟨gm1, hgm1, hsl1⟩ :=
      log_dedup_step t lvl g s msg now gm l ht hgm hsl hbyte htr hany
    have hpair1 := pairEntries_bumpDup l msg lvl now e hpair
    have ht1 : (log t lvl g s msg now).enabled = true := by
      rw [(log_meta t lvl g s msg now).2.2.2]
      exact ht
    obtain ⟨gm', l', h1, h2, h3⟩ := ih (log t lvl g s msg now) lvl g s msg gm1
      (bumpDup msg lvl now l)
      { e with count := (e.count + 1) % 4294967296, time := now }
      ht1 hgm1 hsl1 hbyte htr hpair1
    refine ⟨gm', l', ?_, h2, ?_⟩
    · rw [logRepeat_cons]
      exact h1
    · rw [h3]
      simp [List.getLastD_cons, List.foldl_cons]
      exact (getLastq_getD_cons now e.time rest).symm

theorem logRepeat_pair_mod (t : Tracer) (lvl g s msg : String) (ts : List Nat)
    (h6 : ts ≠ [])
    (ht : t.enabled = true) (hnm : 1 ≤ t.numMessages)
    (hbyte : msg.utf8ByteSize ≠ 0) (htr : goTruncate msg = msg)
    (hfresh : pairEntries (spanEntries t g s) msg lvl = []) :
    pairEntries (spanEntries (logRepeat t lvl g s msg ts) g s) msg lvl =
      [⟨g, s, msg, lvl, ts.getLast h6, ts.length % 4294967296⟩] := by
  cases ts with
  | nil => exact absurd rfl h6
  | cons now rest =>
    obtain ⟨gm1, l1, hgm1, hsl1, hpair1⟩ :=
      log_first_step t lvl g s msg now ht hbyte htr hnm hfresh
    have ht1 : (log t lvl g s msg now).enabled = true := by
      rw [(log_meta t lvl g s msg now).2.2.2]
      exact ht
    obtain ⟨gm', l', h1, h2, h3⟩ := logRepeat_bump rest (log t lvl g s msg now)
      lvl g s msg gm1 l1 ⟨g, s, msg, lvl, now, 1⟩ ht1 hgm1 hsl1 hbyte htr hpair1
    have hsE : spanEntries (logRepeat t lvl g s msg (now :: rest)) g s = l' := by
      rw [logRepeat_cons]
      simp only [spanEntries, h1, Option.getD_some, h2]
    rw [hsE, h3]
    congr 1
    refine congrArg₂ _ ?_ ?_
    · exact (List.getLast_eq_getLastD now rest _).symm
    · rw [foldl_bump_mod rest 1 (by norm_num), List.length_cons]
      congr 1
      omega

theorem bumpDup_pairs (msg lvl : String) (now : Nat) (l : List LogEntry) :
    (bumpDup msg lvl now l).map (fun e => (e.message, e.level)) =
      l.map (fun e => (e.message, e.level)) := by
  induction l with
  | nil => rfl
  | cons e rest ih =>
    by_cases hd : isDup msg lvl e = true
    · simp [bumpDup, hd]
    · simp [bumpDup, hd, ih]

theorem map_pairs_tail (l : List LogEntry) :
    l.tail.map (fun e => (e.message, e.level)) =
      (l.map (fun e => (e.message, e.level))).tail := by
  cases l <;> rfl

theorem log_preserves_nodup (t : Tracer) (lvl g s msg : String) (now : Nat)
    (hI : spanPairsNodup t) : spanPairsNodup (log t lvl g s msg now) := by
  intro g' gm' s' l' h hl
  rcases log_span_lists t lvl g s msg now g' gm' s' l' h hl with
    ⟨g0, gm0, s0, h1, h2⟩ | ⟨l0, horig, hshape⟩
  · exact hI g0 gm0 s0 l' h1 h2
  · have h0 : (l0.map (fun e => (e.message, e.level))).Nodup := by
      rcases horig with ⟨g0, gm0, s0, h1, h2⟩ | rfl
      · exact hI g0 gm0 s0 l0 h1 h2
      · simp
    rcases hshape with ⟨_, rfl⟩ | ⟨hany, hsub⟩
    · rw [bumpDup_pairs]
      exact h0
    · have hnotin : ((goTruncate msg, lvl) : String × String) ∉
          l0.map (fun e => (e.message, e.level)) := by
        intro hmem
        rw [List.mem_map] at hmem
        obtain ⟨e, he, hpe⟩ := hmem
        have h4 := List.any_eq_false.mp hany e he
        have h5 : e.message = goTruncate msg ∧ e.level = lvl := Prod.mk.inj hpe
        simp [isDup, h5.1, h5.2] at h4
      rcases hsub with ⟨_, rfl⟩ | ⟨_, _, rfl⟩ | rfl
      · rw [List.map_append, List.nodup_append]
        refine ⟨h0, by simp, ?_⟩
        intro a ha hb
        simp only [List.map_cons, List.map_nil, List.mem_singleton] at hb
        subst hb
        exact hnotin ha
      · rw [List.map_append, List.nodup_append]
        refine ⟨?_, by simp, ?_⟩
        · rw [map_pairs_tail]
          exact h0.sublist (List.tail_sublist _)
        · intro a ha hb
          simp only [List.map_cons, List.map_nil, List.mem_singleton] at hb
          subst hb
          rw [map_pairs_tail] at ha
          exact hnotin (List.mem_of_mem_tail ha)
      · simp

theorem applyWrites_nodup (ops : List WriteOp) :
    ∀ t : Tracer, spanPairsNodup t → spanPairsNodup (applyWrites t ops) := by
  induction ops with
  | nil => intro t hI; exact hI
  | cons o ops ih =>
    intro t hI
    rw [applyWrites_cons]
    exact ih _ (log_preserves_nodup t o.level o.group o.span o.message o.now hI)

/-- C3 (counterexample to the unamended claim), two independent failures.
(1) `count` is a Go `uint32` and wraps: writing the same ("m", INFO) pair
2^32 times to the same (group, span) leaves the single merged entry with
`occurrenceCount = 0`, not 2^32 — no entry for the pair carries
`occurrenceCount == N` at `N = 2^32`.  (2) A message over 1000 UTF-8 bytes
is truncated before storage: a single write (N = 1) of the 1004-byte
`exLongMsg` yields NO entry for the written (message, level) pair — the one
stored entry carries the 1000-byte truncation, a different message. -/
theorem C3_counterexample_wrap_and_truncation :
    (pairEntries (spanEntries (logRepeat (NewTracerWithSizes 1 1 1) "INFO" "g" "s" "m"
        (List.replicate (2 ^ 32) 7)) "g" "s") "m" "INFO" =
      [⟨"g", "s", "m", "INFO", 7, 0⟩] ∧
      (List.replicate (2 ^ 32) (7 : Nat)).length = 2 ^ 32 ∧
      ¬∃ e, e ∈ spanEntries (logRepeat (NewTracerWithSizes 1 1 1) "INFO" "g" "s" "m"
          (List.replicate (2 ^ 32) 7)) "g" "s" ∧
        e.message = "m" ∧ e.level = "INFO" ∧ e.count = 2 ^ 32) ∧
    (exLongMsg ≠ "" ∧
      exLongMsg.utf8ByteSize = 1004 ∧
      pairEntries (spanEntries (log (NewTracerWithSizes 1 1 1) "INFO" "g" "s"
          exLongMsg 3) "g" "s") exLongMsg "INFO" = [] ∧
      spanEntries (log (NewTracerWithSizes 1 1 1) "INFO" "g" "s" exLongMsg 3) "g" "s" =
        [⟨"g", "s", goTruncate exLongMsg, "INFO", 3, 1⟩] ∧
      goTruncate exLongMsg ≠ exLongMsg) := by
  constructor
  case right =>
    refine ⟨?_, ?_, ?_, ?_, ?_⟩
    · set_option maxRecDepth 40000 in decide
    · set_option maxRecDepth 40000 in decide
    · set_option maxRecDepth 40000 in decide
    · set_option maxRecDepth 40000 in decide
    · set_option maxRecDepth 40000 in decide
  have hne : List.replicate (2 ^ 32) (7 : Nat) ≠ [] := by
    intro hc
    have h := List.length_replicate (2 ^ 32) (7 : Nat)
    rw [hc] at h
    norm_num at h
  have h1 := logRepeat_pair_mod (NewTracerWithSizes 1 1 1) "INFO" "g" "s" "m"
    (List.replicate (2 ^ 32) 7) hne (by decide) (by decide) (by decide) (by decide)
    (by decide)
  have hgl : (List.replicate (2 ^ 32) (7 : Nat)).getLast hne = 7 :=
    List.eq_of_mem_replicate (List.getLast_mem hne)
  have hlen : (List.replicate (2 ^ 32) (7 : Nat)).length = 2 ^ 32 :=
    List.length_replicate _ _
  have hmod : (2 : Nat) ^ 32 % 4294967296 = 0 := by norm_num
  rw [hgl, hlen, hmod] at h1
  refine ⟨h1, hlen, ?_⟩
  rintro ⟨e, he, hm, hlv, hc⟩
  have h2 : e ∈ pairEntries (spanEntries (logRepeat (NewTracerWithSizes 1 1 1)
      "INFO" "g" "s" "m" (List.replicate (2 ^ 32) 7)) "g" "s") "m" "INFO" := by
    simp only [pairEntries, List.mem_filter]
    exact ⟨he, by simp [isDup, hm, hlv]⟩
  rw [h1] at h2
  have he2 := List.mem_singleton.mp h2
  rw [he2] at hc
  norm_num at hc

/-- C3 (amended: `occurrenceCount` is a `uint32`, so the count equals N only
while N stays below 2^32; the message must fit the 1000-byte cap to be stored
verbatim): writing the same non-empty at-most-1000-byte (message, level)
pair to the same (group, span) N times, N ≥ 1, N < 2^32, starting from a
store whose span holds no entry for that pair, yields exactly one entry for
the pair, with `occurrenceCount = N` and `lastSeen` the timestamp of the
last write; and within every span list reachable from a fresh store no two
entries share the same (message, level) pair. -/
theorem C3_dedup_merge_amended :
    (∀ (t : Tracer) (lvl g s msg : String) (ts : List Nat) (h6 : ts ≠ []),
      t.enabled = true → 1 ≤ t.numMessages →
      msg ≠ "" → msg.utf8ByteSize ≤ 1000 →
      pairEntries (spanEntries t g s) msg lvl = [] →
      ts.length < 4294967296 →
      pairEntries (spanEntries (logRepeat t lvl g s msg ts) g s) msg lvl =
        [⟨g, s, msg, lvl, ts.getLast h6, ts.length⟩]) ∧
    (∀ (a b c : Int) (ops : List WriteOp) (g : String)
        (gm : List (String × List LogEntry)) (s : String) (l : List LogEntry),
      mapGet (applyWrites (NewTracerWithSizes a b c) ops).logs g = some gm →
      mapGet gm s = some l →
      (l.map (fun e => (e.message, e.level))).Nodup) := by
  constructor
  · intro t lvl g s msg ts h6 ht hnm hne hle hfresh hlt
    have h1 := logRepeat_pair_mod t lvl g s msg ts h6 ht hnm
      (utf8ByteSize_ne_zero msg hne) (goTruncate_eq_of_le msg hle) hfresh
    rwa [Nat.mod_eq_of_lt hlt] at h1
  · intro a b c ops g gm s l h hl
    have hinit : spanPairsNodup (NewTracerWithSizes a b c) := by
      intro g0 gm0 s0 l0 h0 _
      simp [NewTracerWithSizes, mapGet] at h0
    exact applyWrites_nodup ops _ hinit g gm s l h hl

theorem C3_dedup_merge_amended_witness :
    pairEntries (spanEntries (logRepeat (NewTracerWithSizes 2 2 2) "INFO" "g" "s" "x"
        [1, 5]) "g" "s") "x" "INFO" = [⟨"g", "s", "x", "INFO", 5, 2⟩] ∧
      (([⟨"g", "s", "x", "INFO", 5, 2⟩] : List LogEntry).map
        (fun e => (e.message, e.level))).Nodup :=
  ⟨C3_dedup_merge_amended.1 (NewTracerWithSizes 2 2 2) "INFO" "g" "s" "x"
      [1, 5] (by decide) (by decide) (by decide) (by decide) (by decide) (by decide)
      (by norm_num),
    C3_dedup_merge_amended.2 2 2 2
      [⟨"INFO", "g", "s", "x", 1⟩, ⟨"INFO", "g", "s", "x", 5⟩]
      "g" [("s", [⟨"g", "s", "x", "INFO", 5, 2⟩])] "s" [⟨"g", "s", "x", "INFO", 5, 2⟩]
      (by decide) (by decide)⟩
